import Mathlib

/-!
Verification of the pydoctor object-model core (`pydoctor/model.py` and
`pydoctor/astutils.py`) against its natural-language specification.

The Python code is shallowly embedded: the mutable `System` registry becomes a
record threaded through pure functions, Python `dict`s become insertion-ordered
association lists, object identity becomes a numeric id into an arena, and the
recursion that Python bounds with its interpreter stack (`RecursionError`)
becomes explicit fuel.  Python exceptions are modelled with `Except`.
-/

set_option maxHeartbeats 1600000

namespace PydoctorProof

/-! ### Insertion-ordered dictionaries

Python `dict`s preserve insertion order: an assignment to a fresh key appends,
an assignment to a present key overwrites in place, `del` removes the entry.
-/

/-- `d.get(k)`: first (unique, when keys are nodup) binding of `k`. -/
def dictGet {κ α : Type} [DecidableEq κ] : List (κ × α) → κ → Option α
  | [], _ => none
  | (k', v) :: rest, k => if k' = k then some v else dictGet rest k

/-- `d[k] = v`: overwrite in place if present, else append (insertion order). -/
def dictSet {κ α : Type} [DecidableEq κ] : List (κ × α) → κ → α → List (κ × α)
  | [], k, v => [(k, v)]
  | (k', v') :: rest, k, v =>
    if k' = k then (k, v) :: rest else (k', v') :: dictSet rest k v

/-- `del d[k]`: drop the binding(s) of `k`, keeping the order of the others. -/
def dictDel {κ α : Type} [DecidableEq κ] : List (κ × α) → κ → List (κ × α)
  | [], _ => []
  | (k', v) :: rest, k =>
    if k' = k then dictDel rest k else (k', v) :: dictDel rest k

/-- The keys of a dictionary, in order. -/
def dictKeys {κ α : Type} (l : List (κ × α)) : List κ := l.map Prod.fst

theorem dictGet_dictSet_self {κ α : Type} [DecidableEq κ]
    (l : List (κ × α)) (k : κ) (v : α) : dictGet (dictSet l k v) k = some v := by
  induction l with
  | nil => simp [dictSet, dictGet]
  | cons hd tl ih =>
    obtain ⟨k', v'⟩ := hd
    by_cases h : k' = k
    · simp [dictSet, dictGet, h]
    · simp [dictSet, dictGet, h, ih]

theorem dictGet_dictSet_ne {κ α : Type} [DecidableEq κ]
    (l : List (κ × α)) (k k' : κ) (v : α) (h : k ≠ k') :
    dictGet (dictSet l k v) k' = dictGet l k' := by
  induction l with
  | nil => simp [dictSet, dictGet, h]
  | cons hd tl ih =>
    obtain ⟨k0, v0⟩ := hd
    by_cases h0 : k0 = k
    · subst h0; simp [dictSet, dictGet, h]
    · by_cases h1 : k0 = k'
      · subst h1; simp [dictSet, dictGet, h0]
      · simp [dictSet, dictGet, h0, h1, ih]

theorem dictGet_dictDel_self {κ α : Type} [DecidableEq κ]
    (l : List (κ × α)) (k : κ) : dictGet (dictDel l k) k = none := by
  induction l with
  | nil => simp [dictDel, dictGet]
  | cons hd tl ih =>
    obtain ⟨k', v⟩ := hd
    by_cases h : k' = k
    · simp [dictDel, h, ih]
    · simp [dictDel, dictGet, h, ih]

theorem dictGet_dictDel_ne {κ α : Type} [DecidableEq κ]
    (l : List (κ × α)) (k k' : κ) (h : k ≠ k') :
    dictGet (dictDel l k) k' = dictGet l k' := by
  induction l with
  | nil => simp [dictDel]
  | cons hd tl ih =>
    obtain ⟨k0, v0⟩ := hd
    by_cases h0 : k0 = k
    · subst h0; simp [dictDel, dictGet, h, ih]
    · simp [dictDel, dictGet, h0, ih]

theorem dictGet_eq_none_of_not_mem_keys {κ α : Type} [DecidableEq κ]
    (l : List (κ × α)) (k : κ) (h : k ∉ dictKeys l) : dictGet l k = none := by
  induction l with
  | nil => simp [dictGet]
  | cons hd tl ih =>
    obtain ⟨k', v⟩ := hd
    simp only [dictKeys, List.map_cons, List.mem_cons] at h
    push_neg at h
    simp [dictGet, Ne.symm h.1, ih (by simpa [dictKeys] using h.2)]

theorem mem_keys_of_dictGet_eq_some {κ α : Type} [DecidableEq κ]
    (l : List (κ × α)) (k : κ) (v : α) (h : dictGet l k = some v) :
    k ∈ dictKeys l := by
  induction l with
  | nil => simp [dictGet] at h
  | cons hd tl ih =>
    obtain ⟨k', v'⟩ := hd
    by_cases h0 : k' = k
    · simp [dictKeys, h0]
    · simp only [dictGet, h0, if_false] at h
      have h2 := ih h
      simp only [dictKeys, List.map_cons, List.mem_cons]
      right
      simpa [dictKeys] using h2

/-! ### Decimal representation of naturals

Mirrors Python `str(i)` for the duplicate-disambiguation counter in
`System.handleDuplicate`.  We prove it injective so that the `while` loop
looking for a fresh suffixed key provably terminates with a fresh key.
-/

/-- The character of a single decimal digit. -/
def decDigitChar (d : Nat) : Char := Char.ofNat (48 + d)

/-- Decimal digits, most significant first; structural fuel recursion (the
fuel `n + 1` of `decDigits` always suffices since `n / 10 < n`). -/
def decDigitsFuel : Nat → Nat → List Char
  | 0, _ => []
  | f + 1, n =>
    if n < 10 then [decDigitChar n]
    else decDigitsFuel f (n / 10) ++ [decDigitChar (n % 10)]

/-- Decimal digits of `n`, most significant first. -/
def decDigits (n : Nat) : List Char := decDigitsFuel (n + 1) n

/-- Python `str(i)` for a natural number. -/
def natStr (n : Nat) : String := ⟨decDigits n⟩

/-- Numeric value of a digit character. -/
def decDigitVal (c : Char) : Nat := c.toNat - 48

/-- Decimal parser used only to prove `decDigits` injective. -/
def decParse (l : List Char) : Nat := l.foldl (fun acc c => acc * 10 + decDigitVal c) 0

theorem decDigitVal_decDigitChar {d : Nat} (h : d < 10) :
    decDigitVal (decDigitChar d) = d := by
  interval_cases d <;> decide

theorem decParse_append_digit (l : List Char) (c : Char) :
    decParse (l ++ [c]) = decParse l * 10 + decDigitVal c := by
  simp [decParse, List.foldl_append]

theorem decParse_decDigitsFuel (f : Nat) :
    ∀ n, n < f → decParse (decDigitsFuel f n) = n := by
  induction f with
  | zero => intro n h; omega
  | succ f ih =>
    intro n hn
    by_cases h : n < 10
    · rw [decDigitsFuel]
      simp only [h, if_true]
      simp [decParse, decDigitVal_decDigitChar h]
    · rw [decDigitsFuel]
      simp only [h, if_false]
      rw [decParse_append_digit,
        ih (n / 10) (by omega),
        decDigitVal_decDigitChar (Nat.mod_lt _ (by omega))]
      omega

theorem decParse_decDigits (n : Nat) : decParse (decDigits n) = n :=
  decParse_decDigitsFuel (n + 1) n (by omega)

theorem natStr_injective : Function.Injective natStr := by
  intro a b h
  have hd : decDigits a = decDigits b := by
    have h2 := congrArg String.data h
    simpa [natStr] using h2
  have := decParse_decDigits a
  rw [hd, decParse_decDigits] at this
  omega

/-! ### The data model (`pydoctor/model.py`)

Documentables live in an arena indexed by numeric object ids (modelling Python
object identity); the registry (`System`) holds the `fullName → object` index
`allobjects` plus the other mutable state the claims touch.
-/

/-- The Python class of a documentable: drives `isinstance` dispatch.
`Package` is a subclass of `Module`, so `isinstance(x, Module)` holds for both
`module` and `package`. -/
inductive PyCls : Type
  | module
  | package
  | klass
  | function
  | attribute
deriving DecidableEq, Repr

/-- `DocumentableKind` from `model.py` (the `kind` attribute, distinct from the
Python class: e.g. a `Class` may have its `kind` set to `EXCEPTION`). -/
inductive DKind : Type
  | PACKAGE | MODULE | CLASS | INTERFACE | EXCEPTION
  | CLASS_METHOD | STATIC_METHOD | METHOD | FUNCTION
  | CONSTANT | TYPE_VARIABLE | TYPE_ALIAS | CLASS_VARIABLE
  | SCHEMA_FIELD | ATTRIBUTE | INSTANCE_VARIABLE | PROPERTY | VARIABLE
deriving DecidableEq, Repr

/-- `PrivacyClass` from `model.py`. -/
inductive PrivacyClass : Type
  | HIDDEN
  | PRIVATE
  | PUBLIC
deriving DecidableEq, Repr

/-- `ProcessingState` from `model.py`. -/
inductive ProcessingState : Type
  | UNPROCESSED
  | PROCESSING
  | PROCESSED
deriving DecidableEq, Repr

/-- Python exceptions that the embedded operations can raise. -/
inductive PyErr : Type
  | recursionError
  | indexError
  | lookupError
  | valueError (msg : String)
deriving DecidableEq, Repr

/-- `isinstance(x, Module)` (`Package` subclasses `Module`). -/
def isModuleCls : PyCls → Bool
  | .module => true
  | .package => true
  | _ => false

/-- `isinstance(x, Package)`. -/
def isPackageCls : PyCls → Bool
  | .package => true
  | _ => false

/-- `isinstance(x, Class)`. -/
def isClassCls : PyCls → Bool
  | .klass => true
  | _ => false

/-- `isinstance(x, Function)`. -/
def isFunctionCls : PyCls → Bool
  | .function => true
  | _ => false

/-- The per-object mutable state of a `Documentable`.  Fields keep the source
attribute names.  `annotations` records, for each parameter name of a
`Function`, the dotted name of its annotation expression when the expression is
an `ast.Name`/`ast.Attribute` chain (`node2dottedname`), else `none`. -/
structure ObjData : Type where
  cls : PyCls
  name : String
  parent : Option Nat := none
  kind : Option DKind := none
  contents : List (String × Nat) := []
  _localNameToFullName_map : List (String × String) := []
  _is_c_module : Bool := false
  rawbases : List String := []
  _initialbases : List String := []
  _initialbaseobjects : List (Option Nat) := []
  _finalbases : Option (List String) := none
  _finalbaseobjects : Option (List (Option Nat)) := none
  _mro : Option (List (Nat ⊕ String)) := none
  constructors : List Nat := []
  annotations : List (String × Option (List String)) := []
deriving DecidableEq, Repr

/-- The registry; `model.py`'s `System` mutable state, restricted to the fields
the verified operations read or write.  Diagnostics issued through
`Documentable.report`/`System.msg` are collected in `diags`. -/
structure System : Type where
  allobjects : List (String × Nat) := []
  objs : List (Nat × ObjData) := []
  rootobjects : List Nat := []
  unprocessed_modules : List Nat := []
  modules : List (String × Nat) := []
  _privacyClassCache : List (String × PrivacyClass) := []
  options_privacy : List (PrivacyClass × String) := []
  diags : List String := []
  module_count : Nat := 0
deriving DecidableEq, Repr

/-- Dereference an object id in the arena. -/
def getObj (sys : System) (i : Nat) : Option ObjData := dictGet sys.objs i

/-- Overwrite an object's state in the arena. -/
def setObj (sys : System) (i : Nat) (d : ObjData) : System :=
  { sys with objs := dictSet sys.objs i d }

/-- `Documentable.fullName()`: the dotted path through the `parent` chain.
The fuel bounds the chain length (Python bounds it by the interpreter stack);
all theorems use ample fuel. -/
def fullNameF : Nat → System → Nat → String
  | 0, _, _ => ""
  | f + 1, sys, i =>
    match getObj sys i with
    | none => ""
    | some d =>
      match d.parent with
      | none => d.name
      | some p => fullNameF f sys p ++ "." ++ d.name

/-- `_localNameToFullName`, dispatched on the Python class like the method
overrides in `model.py`:
`Module`: own contents, then the import-alias map, else the name itself;
`Class`: own contents, then the alias map, else delegate to the parent;
`Inheritable` (`Function`/`Attribute`): delegate to the parent. -/
def localNameToFullNameF : Nat → System → Nat → String → String
  | 0, _, _, n => n
  | f + 1, sys, i, n =>
    match getObj sys i with
    | none => n
    | some d =>
      match d.cls with
      | .module | .package =>
        match dictGet d.contents n with
        | some c => fullNameF (f + 1) sys c
        | none =>
          match dictGet d._localNameToFullName_map n with
          | some v => v
          | none => n
      | .klass =>
        match dictGet d.contents n with
        | some c => fullNameF (f + 1) sys c
        | none =>
          match dictGet d._localNameToFullName_map n with
          | some v => v
          | none =>
            match d.parent with
            | some p => localNameToFullNameF f sys p n
            | none => n
      | .function | .attribute =>
        match d.parent with
        | some p => localNameToFullNameF f sys p n
        | none => n

/-- `Class.allbases(include_self)`: pre-order walk of the resolved base-object
links, using `_finalbaseobjects` when set, else `_initialbaseobjects`. -/
def allbasesF : Nat → System → Nat → Bool → List Nat
  | 0, _, _, _ => []
  | f + 1, sys, i, include_self =>
    match getObj sys i with
    | none => []
    | some d =>
      let baseobjects := d._finalbaseobjects.getD d._initialbaseobjects
      (if include_self then [i] else []) ++
        (baseobjects.filterMap id).flatMap (fun b => allbasesF f sys b true)

/-- `Class.mro(include_external, include_self)`: when `_mro` is unset (before
post-processing) fall back to `allbases(include_self)`, else filter/truncate
the cached list. -/
def mroMethodF (f : Nat) (sys : System) (i : Nat)
    (include_external include_self : Bool) : List (Nat ⊕ String) :=
  match getObj sys i with
  | none => []
  | some d =>
    match d._mro with
    | none => (allbasesF f sys i include_self).map Sum.inl
    | some m =>
      let m1 := if include_external then m else m.filter (fun s => s.isLeft)
      if include_self then m1 else m1.drop 1

/-- `Class.find(name)`: look `name` up in the class and its base classes, in
MRO order (`mro()` with defaults: classes only, self included). -/
def findF (f : Nat) (sys : System) (i : Nat) (n : String) : Option Nat :=
  (mroMethodF f sys i false true).findSome?
    (fun s =>
      match s with
      | .inl c =>
        match getObj sys c with
        | some d => dictGet d.contents n
        | none => none
      | .inr _ => none)

/-- `str.join(sep)` over a list of strings (Python `'sep'.join(parts)`),
written over the character data so that it reduces definitionally. -/
def strJoin (sep : String) : List String → String
  | [] => ""
  | h :: t => t.foldl (fun a x => a ++ sep ++ x) h

/-- Python `s.startswith(pre)`. -/
def strStartsWith (s pre : String) : Bool := pre.data.isPrefixOf s.data

/-- Python `s.endswith(suf)`. -/
def strEndsWith (s suf : String) : Bool := suf.data.isSuffixOf s.data

/-- `s.split('.')` on the underlying character list (every occurrence,
empty fields kept, like Python `str.split` with an explicit separator). -/
def splitCharsOnDot : List Char → List (List Char)
  | [] => [[]]
  | c :: cs =>
    match splitCharsOnDot cs with
    | [] => [[c]]
    | h :: t => if c = '.' then [] :: h :: t else (c :: h) :: t

/-- Python `name.split('.')`. -/
def splitDots (s : String) : List String := (splitCharsOnDot s.data).map (⟨·⟩)

/-- `full_name.split('.', 1)` on the underlying character list. -/
def splitCharsFirstDot : List Char → List Char × Option (List Char)
  | [] => ([], none)
  | c :: cs =>
    if c = '.' then ([], some cs)
    else
      let r := splitCharsFirstDot cs
      (c :: r.1, r.2)

/-- `full_name.split('.', 1)`: head before the first dot, and the rest (absent
when the string has no dot). -/
def splitFirstDot (s : String) : String × Option String :=
  let r := splitCharsFirstDot s.data
  (⟨r.1⟩, r.2.map (⟨·⟩))

/-! ### Name resolution: `System.objForFullName` and `Documentable.expandName`

These are mutually recursive in the source (`objForFullName` falls back to a
root object's `expandName`; `expandName` re-anchors through `objForFullName`).
Python bounds this recursion by the interpreter stack and `expandName` catches
the resulting `RecursionError` around its `objForFullName` call; the fuel
models the stack, fuel exhaustion models `RecursionError`. -/

mutual

/-- `System.objForFullName(full_name, raise_missing)`: exact `allobjects`
lookup, then recovery through the matching root object's `expandName`.
`.error .indexError` models the `name_parts[1]` access when a dot-free name
matches a root that is absent from `allobjects` (unreachable when every root
is indexed). -/
def objForFullNameE : Nat → System → String → Bool → Except PyErr (Option Nat)
  | 0, _, _, _ => .error .recursionError
  | f + 1, sys, full_name, raise_missing =>
    match dictGet sys.allobjects full_name with
    | some o => .ok (some o)
    | none => rootLoopE f sys (splitFirstDot full_name) raise_missing sys.rootobjects
termination_by f => (f, 0)

/-- The `for root_obj in self.rootobjects` loop of `objForFullName`. -/
def rootLoopE : Nat → System → String × Option String → Bool → List Nat →
    Except PyErr (Option Nat)
  | _, _, _, _, [] => .ok none
  | f, sys, (hd, rest), raise_missing, r :: rs =>
    if (getObj sys r).map (·.name) = some hd then
      match rest with
      | none => .error .indexError
      | some tail =>
        match expandNameE f sys r tail with
        | .error e => .error e
        | .ok s =>
          match dictGet sys.allobjects s with
          | some o => .ok (some o)
          | none => if raise_missing then .error .lookupError else .ok none
    else rootLoopE f sys (hd, rest) raise_missing rs
termination_by f _ _ _ roots => (f, 3 + roots.length)

/-- `Documentable.expandName(name)`: split on dots and run the resolution
loop, starting anchored at the receiver. -/
def expandNameE : Nat → System → Nat → String → Except PyErr String
  | 0, _, _, _ => .error .recursionError
  | f + 1, sys, selfId, name =>
    match splitDots name with
    | [] => .ok name
    | p :: rest => expGoE f sys selfId true p rest
termination_by f => (f, 1)

/-- One component's name lookup in the `expandName` loop:
`full_name = obj._localNameToFullName(p)`, then — when that failed
(`full_name == p`) past the first component (`i != 0`) on a `Class` — the
`obj.find(p)` fallback to inherited members. -/
def expStep (f : Nat) (sys : System) (obj : Nat) (first : Bool) (p : String) :
    String :=
  let fn0 := localNameToFullNameF f sys obj p
  if fn0 = p ∧ first = false ∧
      ((getObj sys obj).map (fun d => isClassCls d.cls)) = some true then
    match findF f sys obj p with
    | some inh => fullNameF f sys inh
    | none => fn0
  else fn0

/-- The `for i, p in enumerate(parts)` loop of `expandName`: `obj` is the
current anchor, `first` says whether this is the first component (`i == 0`).
When the component still resolves to itself (past the first), break with the
literal concatenation; otherwise try to re-anchor through `objForFullName`
(`expAfterE`). -/
def expGoE : Nat → System → Nat → Bool → String → List String →
    Except PyErr String
  | f, sys, obj, first, p, rest =>
    if expStep f sys obj first p = p ∧ first = false then
      .ok (strJoin "." ((fullNameF f sys obj ++ "." ++ p) :: rest))
    else
      expAfterE f sys (expStep f sys obj first p) rest
        (objForFullNameE f sys (expStep f sys obj first p) false)
termination_by f _ _ _ _ rest => (f, 2 * rest.length + 3)

/-- The tail of one `expandName` iteration, given the `objForFullName` result
on the expanded component: a `RecursionError` is caught (`break` to the
literal fallback), other exceptions propagate, a miss breaks, a hit re-anchors
and continues with the next component. -/
def expAfterE : Nat → System → String → List String →
    Except PyErr (Option Nat) → Except PyErr String
  | _, _, fn1, rest, .error .recursionError => .ok (strJoin "." (fn1 :: rest))
  | _, _, _, _, .error .indexError => .error .indexError
  | _, _, _, _, .error .lookupError => .error .lookupError
  | _, _, _, _, .error (.valueError m) => .error (.valueError m)
  | _, _, fn1, rest, .ok none => .ok (strJoin "." (fn1 :: rest))
  | _, _, fn1, [], .ok (some _) => .ok fn1
  | f, sys, _, p' :: rest', .ok (some nxt) => expGoE f sys nxt false p' rest'
termination_by f _ _ rest _ => (f, 2 * rest.length + 2)

end

/-- `Documentable.resolveName(name)`:
`objForFullName(expandName(name))`. -/
def resolveNameE (f : Nat) (sys : System) (ctx : Nat) (name : String) :
    Except PyErr (Option Nat) :=
  match expandNameE f sys ctx name with
  | .error e => .error e
  | .ok s => objForFullNameE f sys s false

/-! ### Registry mutations: `_remove`, `handleDuplicate`, `addObject`,
`reparent`, `_addUnprocessedModule`, `_handleDuplicateModule` -/

/-- `System._remove(o)`: delete `o.fullName()` from `allobjects`, then
recurse into `o.contents`. -/
def removeF : Nat → System → Nat → System
  | 0, sys, _ => sys
  | f + 1, sys, i =>
    match getObj sys i with
    | none => sys
    | some d =>
      let sys1 := { sys with
        allobjects := dictDel sys.allobjects (fullNameF (f + 1) sys i) }
      d.contents.foldl (fun s c => removeF f s c.2) sys1

/-- The local `readd(o)` closure of `System.handleDuplicate`: re-insert `o`
under its (new) `fullName()`, then recurse into `o.contents`. -/
def readdF : Nat → System → Nat → System
  | 0, sys, _ => sys
  | f + 1, sys, i =>
    match getObj sys i with
    | none => sys
    | some d =>
      let sys1 := { sys with
        allobjects := dictSet sys.allobjects (fullNameF (f + 1) sys i) i }
      d.contents.foldl (fun s c => readdF f s c.2) sys1

/-- The disambiguated key `fullName + ' ' + str(i)` tried by the `while` loop
of `System.handleDuplicate`. -/
def mkDupKey (full : String) (i : Nat) : String := full ++ " " ++ natStr i

/-- The `while (fullName + ' ' + str(i)) in self.allobjects: i += 1` loop;
fuel `keys.length + 1` provably suffices (`freshSuffix_spec`). -/
def freshLoop (keys : List String) (full : String) : Nat → Nat → Nat
  | 0, i => i
  | f + 1, i => if mkDupKey full i ∈ keys then freshLoop keys full f (i + 1) else i

/-- The counter value at which the `while` loop of `handleDuplicate` stops. -/
def freshSuffix (keys : List String) (full : String) : Nat :=
  freshLoop keys full (keys.length + 1) 0

theorem mkDupKey_injective (full : String) :
    Function.Injective (mkDupKey full) := by
  intro a b h
  have hdata := congrArg String.data h
  simp only [mkDupKey, String.data_append] at hdata
  have h2 : (natStr a).data = (natStr b).data := List.append_cancel_left hdata
  have h3 : natStr a = natStr b := by
    have ha : natStr a = ⟨(natStr a).data⟩ := rfl
    have hb : natStr b = ⟨(natStr b).data⟩ := rfl
    rw [ha, hb, h2]
  exact natStr_injective h3

theorem freshLoop_not_mem (keys : List String) (full : String) :
    ∀ f i, (∀ j < i, mkDupKey full j ∈ keys) → keys.length < f + i →
      mkDupKey full (freshLoop keys full f i) ∉ keys := by
  intro f
  induction f with
  | zero =>
    intro i hall hlen
    exfalso
    have hnodup : ((List.range i).map (mkDupKey full)).Nodup :=
      (List.nodup_range i).map (mkDupKey_injective full)
    have hsub : (List.range i).map (mkDupKey full) ⊆ keys := by
      intro x hx
      obtain ⟨j, hj, rfl⟩ := List.mem_map.mp hx
      exact hall j (List.mem_range.mp hj)
    have := (List.subperm_of_subset hnodup hsub).length_le
    simp only [List.length_map, List.length_range] at this
    omega
  | succ f ih =>
    intro i hall hlen
    rw [freshLoop]
    by_cases hmem : mkDupKey full i ∈ keys
    · simp only [hmem, if_true]
      refine ih (i + 1) (fun j hj => ?_) (by omega)
      rcases Nat.lt_succ_iff_lt_or_eq.mp hj with h | h
      · exact hall j h
      · subst h; exact hmem
    · rw [if_neg hmem]
      exact hmem

/-- The key chosen by the `while` loop of `handleDuplicate` is fresh. -/
theorem freshSuffix_spec (keys : List String) (full : String) :
    mkDupKey full (freshSuffix keys full) ∉ keys :=
  freshLoop_not_mem keys full (keys.length + 1) 0 (by omega) (by omega)

/-- `System.handleDuplicate(obj)`: pick the least free `' <i>'`-suffixed key,
log one diagnostic naming both definitions, remove the previous occupant's
subtree from the index, rename the previous occupant, re-add its subtree under
the new names, and hand the canonical `fullName` key to `obj`. -/
def handleDuplicate (f : Nat) (sys : System) (objId : Nat) : System :=
  match getObj sys objId with
  | none => sys
  | some od =>
    let fullName := fullNameF f sys objId
    let i := freshSuffix (dictKeys sys.allobjects) fullName
    match dictGet sys.allobjects fullName with
    | none => sys
    | some prevId =>
      -- obj.report(f"duplicate {str(prev)}", thresh=1)
      let sys1 := { sys with
        diags := sys.diags ++ ["duplicate " ++ fullNameF f sys prevId] }
      let sys2 := removeF f sys1 prevId
      -- prev.name = obj.name + ' ' + str(i)
      let sys3 :=
        match getObj sys2 prevId with
        | some pd => setObj sys2 prevId { pd with name := od.name ++ " " ++ natStr i }
        | none => sys2
      let sys4 := readdF f sys3 prevId
      { sys4 with allobjects := dictSet sys4.allobjects fullName objId }

/-- `System.addObject(obj)`: record modules in `modules`, attach the object to
its parent's `contents` (or to `rootobjects` for parentless modules; a
parentless non-module raises `ValueError`), then claim the `fullName` slot in
`allobjects`, running `handleDuplicate` when another object already holds
it. -/
def addObject (f : Nat) (sys : System) (objId : Nat) : Except PyErr System :=
  match getObj sys objId with
  | none => .ok sys
  | some d =>
    let fullName := fullNameF f sys objId
    let sys1 :=
      if isModuleCls d.cls then
        { sys with modules := dictSet sys.modules fullName objId }
      else sys
    match d.parent with
    | some p =>
      let sys2 :=
        match getObj sys1 p with
        | some pd => setObj sys1 p { pd with contents := dictSet pd.contents d.name objId }
        | none => sys1
      -- first = self.allobjects.setdefault(obj.fullName(), obj)
      match dictGet sys2.allobjects fullName with
      | none => .ok { sys2 with allobjects := dictSet sys2.allobjects fullName objId }
      | some firstId =>
        if firstId = objId then .ok sys2 else .ok (handleDuplicate f sys2 objId)
    | none =>
      if isModuleCls d.cls then
        let sys2 := { sys1 with rootobjects := sys1.rootobjects ++ [objId] }
        match dictGet sys2.allobjects fullName with
        | none => .ok { sys2 with allobjects := dictSet sys2.allobjects fullName objId }
        | some firstId =>
          if firstId = objId then .ok sys2 else .ok (handleDuplicate f sys2 objId)
      else .error (.valueError "Top-level object is not a module")

/-- `Documentable._handle_reparenting_pre`: delete the current `fullName` (and
recursively every descendant's) from `allobjects`. -/
def handleReparentingPre : Nat → System → Nat → System
  | 0, sys, _ => sys
  | f + 1, sys, i =>
    match getObj sys i with
    | none => sys
    | some d =>
      let sys1 := { sys with
        allobjects := dictDel sys.allobjects (fullNameF (f + 1) sys i) }
      d.contents.foldl (fun s c => handleReparentingPre f s c.2) sys1

/-- `Documentable._handle_reparenting_post`: re-register the current
`fullName` (and recursively every descendant's) in `allobjects`. -/
def handleReparentingPost : Nat → System → Nat → System
  | 0, sys, _ => sys
  | f + 1, sys, i =>
    match getObj sys i with
    | none => sys
    | some d =>
      let sys1 := { sys with
        allobjects := dictSet sys.allobjects (fullNameF (f + 1) sys i) i }
      d.contents.foldl (fun s c => handleReparentingPost f s c.2) sys1

/-- `Documentable.reparent(new_parent, new_name)` from `model.py`: possibly
evict an occupant of the target slot via `handleDuplicate`, unregister the
subtree, rewire `parent`/`name`, re-register (twice, as in the source), drop
the old containment entry, leave the forwarding alias
`old_local_name → new_full_name` in the old parent's
`_localNameToFullName_map`, and add the new containment entry. -/
def reparent (f : Nat) (sys : System) (selfId newParentId : Nat)
    (new_name : String) : System :=
  match getObj sys selfId with
  | none => sys
  | some d0 =>
    let old_name := d0.name
    -- if new_name in new_contents: handleDuplicate + report
    let sys0 :=
      match getObj sys newParentId with
      | some npd =>
        match dictGet npd.contents new_name with
        | some victim =>
          let s1 := handleDuplicate f sys victim
          { s1 with diags := s1.diags ++ ["introduced by re-exporting"] }
        | none => sys
      | none => sys
    let sys1 := handleReparentingPre f sys0 selfId
    -- old_parent = self.parent; self.parent = self.parentMod = new_parent;
    -- self.name = new_name
    match getObj sys1 selfId with
    | none => sys1
    | some d =>
      let old_parent := d.parent
      let sys2 := setObj sys1 selfId { d with parent := some newParentId, name := new_name }
      let sys3 := handleReparentingPost f sys2 selfId
      -- del old_parent.contents[old_name]
      -- old_parent._localNameToFullName_map[old_name] = self.fullName()
      let sys4 :=
        match old_parent with
        | some opId =>
          match getObj sys3 opId with
          | some opd =>
            setObj sys3 opId { opd with
              contents := dictDel opd.contents old_name,
              _localNameToFullName_map :=
                dictSet opd._localNameToFullName_map old_name (fullNameF f sys3 selfId) }
          | none => sys3
        | none => sys3
      -- new_parent.contents[new_name] = self
      let sys5 :=
        match getObj sys4 newParentId with
        | some npd =>
          setObj sys4 newParentId { npd with contents := dictSet npd.contents new_name selfId }
        | none => sys4
      handleReparentingPost f sys5 selfId

mutual

/-- `System._addUnprocessedModule(mod)`: if the fullName is already taken (by
a module), run `_handleDuplicateModule`; otherwise enqueue and register the
module.  (The console `progress` call is not modelled.) -/
def addUnprocessedModule : Nat → System → Nat → Except PyErr System
  | 0, _, _ => .error .recursionError
  | f + 1, sys, modId =>
    match getObj sys modId with
    | none => .ok sys
    | some _ =>
      match dictGet sys.allobjects (fullNameF (f + 1) sys modId) with
      | some firstId => handleDuplicateModule f sys firstId modId
      | none =>
        match addObject (f + 1)
            { sys with unprocessed_modules := sys.unprocessed_modules ++ [modId] }
            modId with
        | .error e => .error e
        | .ok sys2 => .ok { sys2 with module_count := sys2.module_count + 1 }

/-- `System._handleDuplicateModule(first, dup)`: C-modules win over source
modules, packages win over plain modules, otherwise the last added module wins
and `first`'s entire subtree is deleted from the index outright. -/
def handleDuplicateModule : Nat → System → Nat → Nat → Except PyErr System
  | 0, _, _, _ => .error .recursionError
  | f + 1, sys, firstId, dupId =>
    match getObj sys firstId, getObj sys dupId with
    | some fd, some dd =>
      -- dup.report(f"duplicate {str(first)}", thresh=1)
      let sys1 := { sys with
        diags := sys.diags ++ ["duplicate " ++ fullNameF (f + 1) sys firstId] }
      if fd._is_c_module = true ∧ isPackageCls dd.cls = false then .ok sys1
      else if isPackageCls fd.cls = true ∧ isPackageCls dd.cls = false then .ok sys1
      else
        let sys2 := removeF (f + 1) sys1 firstId
        let sys3 := { sys2 with
          unprocessed_modules := sys2.unprocessed_modules.erase firstId }
        addUnprocessedModule f sys3 dupId
    | _, _ => .ok sys

end

/-! ### Privacy classification (`System.privacyClass`, `Module.privacyClass`) -/

/-- Modelled from the spec: `pydoctor.qnmatch.qnmatch` is not under `src/`;
the spec describes the rules as "glob-style pattern rules", so this is a
standard glob matcher over the whole name (`*` matches any substring, `?` any
single character, everything else literally).  Structural fuel recursion:
every step shrinks `|pattern| + |name|`, so the fuel used by `qnmatch` always
suffices. -/
def globChars : Nat → List Char → List Char → Bool
  | 0, _, _ => false
  | _ + 1, [], [] => true
  | f + 1, '*' :: ps, [] => globChars f ps []
  | _ + 1, _ :: _, [] => false
  | _ + 1, [], _ :: _ => false
  | f + 1, p :: ps, c :: cs =>
    if p = '*' then globChars f ps (c :: cs) || globChars f (p :: ps) cs
    else if p = '?' then globChars f ps cs
    else p = c && globChars f ps cs

/-- Modelled from the spec: `qnmatch.qnmatch(name, pattern)` — glob-style
pattern match of a qualified name. -/
def qnmatch (name pattern : String) : Bool :=
  globChars (pattern.length + name.length + 1) pattern.data name.data

/-- `System.privacyClass(ob)`: consult the per-fullName cache; `None` kinds
are `HIDDEN` (uncached); a leading-underscore, non-dunder local name defaults
to `PRIVATE`; then user pattern rules in CLI order — exact matches first, then
glob matches, in both cases the last declared rule wins (the source iterates
`reversed(self.options.privacy)` and breaks at the first hit).  Returns the
classification together with the updated cache. -/
def systemPrivacyClass (f : Nat) (sys : System) (obId : Nat) :
    PrivacyClass × System :=
  match getObj sys obId with
  | none => (.HIDDEN, sys)
  | some ob =>
    let ob_fullName := fullNameF f sys obId
    match dictGet sys._privacyClassCache ob_fullName with
    | some cached => (cached, sys)
    | none =>
      match ob.kind with
      | none => (.HIDDEN, sys)
      | some _ =>
        let privacy0 : PrivacyClass :=
          if strStartsWith ob.name "_" = true ∧
              ¬(strStartsWith ob.name "__" = true ∧ strEndsWith ob.name "__" = true) then
            .PRIVATE
          else .PUBLIC
        let privacy :=
          match sys.options_privacy.reverse.find? (fun pm => pm.2 == ob_fullName) with
          | some pm => pm.1
          | none =>
            match sys.options_privacy.reverse.find? (fun pm => qnmatch ob_fullName pm.2) with
            | some pm => pm.1
            | none => privacy0
        (privacy,
          { sys with
            _privacyClassCache := dictSet sys._privacyClassCache ob_fullName privacy })

/-- The `privacyClass` property seen on a documentable: `Module.privacyClass`
overrides the generic property so that a module locally named `__main__` is
`PRIVATE` unconditionally; everything else defers to
`System.privacyClass`. -/
def documentablePrivacyClass (f : Nat) (sys : System) (obId : Nat) :
    PrivacyClass × System :=
  match getObj sys obId with
  | some d =>
    if isModuleCls d.cls = true ∧ d.name = "__main__" then (.PRIVATE, sys)
    else systemPrivacyClass f sys obId
  | none => systemPrivacyClass f sys obId

/-! ### Constructor detection (`_find_dunder_constructor`,
`Class._init_constructors`) -/

/-- `Documentable.module`: the enclosing module (the object itself for
modules), following `parent` links. -/
def moduleOf : Nat → System → Nat → Option Nat
  | 0, _, _ => none
  | f + 1, sys, i =>
    match getObj sys i with
    | none => none
    | some d =>
      if isModuleCls d.cls then some i
      else
        match d.parent with
        | some p => moduleOf f sys p
        | none => none

/-- `_find_dunder_constructor(cls)`: `cls.find('__new__')` — when that is a
`Function`, use it; when `__new__` is absent entirely, try
`cls.find('__init__')`; a non-`Function` `__new__` yields no constructor. -/
def findDunderConstructor (f : Nat) (sys : System) (clsId : Nat) : Option Nat :=
  match findF f sys clsId "__new__" with
  | some nId =>
    match getObj sys nId with
    | some nd => if isFunctionCls nd.cls then some nId else none
    | none => none
  | none =>
    match findF f sys clsId "__init__" with
    | some iId =>
      match getObj sys iId with
      | some idd => if isFunctionCls idd.cls then some iId else none
      | none => none
    | none => none

/-- `astutils.node2fullname(expr, ctx)` applied to an annotation recorded as
an optional dotted name: `expandName` of the joined dotted name in `ctx`
(`none` when the expression is not a name chain, like the source's `None`
result from `node2dottedname`). -/
def node2fullnameF (f : Nat) (sys : System) (ctx : Nat)
    (dotted : Option (List String)) : Option String :=
  match dotted with
  | none => none
  | some parts =>
    match expandNameE f sys ctx (strJoin "." parts) with
    | .ok s => some s
    | .error _ => none

/-- The static/class-method loop of `Class._init_constructors`: a `Function`
in the class's own `contents` whose kind is `STATIC_METHOD`/`CLASS_METHOD` and
whose `'return'` annotation resolves (at module scope) to the class's own
fullName or to the `Self` sentinels is recognized as a constructor. -/
def isAnnotatedConstructor (f : Nat) (sys : System)
    (clsFullName : String) (modId : Option Nat) (funId : Nat) : Bool :=
  match getObj sys funId with
  | none => false
  | some fd =>
    if isFunctionCls fd.cls = false then false
    else if fd.kind ≠ some .STATIC_METHOD ∧ fd.kind ≠ some .CLASS_METHOD then false
    else
      match dictGet fd.annotations "return" with
      | none => false
      | some dotted =>
        let return_ann :=
          match modId with
          | some m => node2fullnameF f sys m dotted
          | none => none
        return_ann = some clsFullName ∨
          return_ann = some "typing.Self" ∨
          return_ann = some "typing_extensions.Self"

/-- `Class._init_constructors()`: the dunder constructor (if any), then the
annotated static/class-method constructors from the class's own `contents`,
in declaration order.  (`epydoc2stan.populate_constructors_extra_info` only
attaches presentation info and is not modelled.) -/
def initConstructors (f : Nat) (sys : System) (clsId : Nat) : System :=
  match getObj sys clsId with
  | none => sys
  | some d =>
    let dunder :=
      match findDunderConstructor f sys clsId with
      | some c => [c]
      | none => []
    let clsFullName := fullNameF f sys clsId
    let modId := moduleOf f sys clsId
    let annotated :=
      (d.contents.map Prod.snd).filter
        (fun funId => isAnnotatedConstructor f sys clsFullName modId funId)
    setObj sys clsId { d with constructors := d.constructors ++ dunder ++ annotated }

/-! ### Method-resolution-order computation (`compute_mro`, `Class._init_mro`) -/

/-- `Class.bases`: `_finalbases` when set, else `_initialbases`. -/
def basesOf (d : ObjData) : List String := d._finalbases.getD d._initialbases

/-- `Class.baseobjects`: `_finalbaseobjects` when set, else
`_initialbaseobjects`. -/
def baseobjectsOf (d : ObjData) : List (Option Nat) :=
  d._finalbaseobjects.getD d._initialbaseobjects

/-- Python `list.index(x)` (the position of the first occurrence; the length
when absent, where Python would raise `ValueError`). -/
def listIndex (x : Nat) : List Nat → Nat
  | [] => 0
  | y :: ys => if y = x then 0 else listIndex x ys + 1

mutual

/-- The recursive `init_finalbaseobjects(o, path)` closure of `compute_mro`.
Mutates (threads) the system; a raised exception is returned alongside the
state reached so far, since earlier recursive calls may already have stored
`_finalbaseobjects` on superclasses.  Revisiting a class on the current path
raises the "Cycle found while computing inheritance hierarchy" `ValueError`
whose message joins `path[path.index(cls):] + [cls]` with `" -> "`. -/
def initFinalBaseObjects : Nat → System → Nat → Nat → List Nat →
    System × Option PyErr
  | 0, sys, _, _, _ => (sys, some .recursionError)
  | f + 1, sys, cls, o, path =>
    if o ∈ path then
      (sys, some (.valueError
        ("Cycle found while computing inheritance hierarchy: " ++
          strJoin " -> "
            (((path.drop (listIndex cls path)) ++ [cls]).map
              (fun c => fullNameF (f + 1) sys c)))))
    else
      let path' := path ++ [o]
      match getObj sys o with
      | none => (sys, none)
      | some d =>
        if d._finalbaseobjects.isSome then (sys, none)
        else if d.rawbases.isEmpty then (sys, none)
        else
          initFBOLoop f sys cls o path'
            (d.rawbases.zip (d._initialbaseobjects.zip d._initialbases)) [] []

/-- The `for i,((str_base, _), base) in enumerate(...)` loop of
`init_finalbaseobjects`: accumulate `finalbaseobjects`/`finalbases`,
re-resolving only bases that were `None` after the eager first pass, and
recurse into every resolved base. -/
def initFBOLoop : Nat → System → Nat → Nat → List Nat →
    List (String × Option Nat × String) → List (Option Nat) → List String →
    System × Option PyErr
  | 0, sys, _, _, _, _, _, _ => (sys, some .recursionError)
  | _ + 1, sys, _, o, _, [], accObjs, accNames =>
    -- o._finalbaseobjects = finalbaseobjects; o._finalbases = finalbases
    (match getObj sys o with
     | some d =>
       (setObj sys o
         { d with _finalbaseobjects := some accObjs, _finalbases := some accNames },
        none)
     | none => (sys, none))
  | f + 1, sys, cls, o, path, (str_base, base0, initb) :: rest, accObjs, accNames =>
    let resolved : Option Nat × System × Option PyErr :=
      match base0 with
      | some b => (some b, sys, none)
      | none =>
        match (getObj sys o).bind (·.parent) with
        | some par =>
          match resolveNameE (f + 1) sys par str_base with
          | .ok (some r) =>
            match getObj sys r with
            | some rd => if isClassCls rd.cls then (some r, sys, none) else (none, sys, none)
            | none => (none, sys, none)
          | .ok none => (none, sys, none)
          | .error e => (none, sys, some e)
        | none => (none, sys, none)
    match resolved with
    | (_, sysA, some e) => (sysA, some e)
    | (some b, sysA, none) =>
      let accObjs' := accObjs ++ [some b]
      let accNames' := accNames ++ [fullNameF (f + 1) sysA b]
      -- if base: init_finalbaseobjects(base, path.copy())
      match initFinalBaseObjects f sysA cls b path with
      | (sysB, some e) => (sysB, some e)
      | (sysB, none) => initFBOLoop f sysB cls o path rest accObjs' accNames'
    | (none, sysA, none) =>
      initFBOLoop f sysA cls o path rest (accObjs ++ [none]) (accNames ++ [initb])

end

/-- The `localbases`/`getbases` closures of `compute_mro`: the resolved base
object when it is a `Class`, else the expanded base name (and no bases at all
for a bare name). -/
def getbasesF (f : Nat) (sys : System) : Nat ⊕ String → List (Nat ⊕ String)
  | .inr _ => []
  | .inl c =>
    match getObj sys c with
    | none => []
    | some d =>
      ((basesOf d).zip (baseobjectsOf d)).map
        (fun sb =>
          match sb.2 with
          | some b => .inl b
          | none => .inr sb.1)

/-- Modelled from the spec: one selection step of the C3 merge used by
`pydoctor.mro.mro` (not under `src/`): "repeatedly selecting the next class
that appears at the head of some list and not in the tail of any other
list". -/
def c3Merge {α : Type} [DecidableEq α] : Nat → List (List α) → Except PyErr (List α)
  | 0, _ => .error .recursionError
  | f + 1, lists =>
    let lists' := lists.filter (fun l => ¬l.isEmpty)
    if lists'.isEmpty then .ok []
    else
      match lists'.find?
          (fun l =>
            match l with
            | [] => false
            | h :: _ => lists'.all (fun l2 => ¬l2.tail.contains h)) with
      | none => .error (.valueError "Cannot compute linearization of the class")
      | some [] => .error (.valueError "Cannot compute linearization of the class")
      | some (h :: _) =>
        match c3Merge f (lists'.map (fun l => l.filter (fun x => x ≠ h))) with
        | .error e => .error e
        | .ok rest => .ok (h :: rest)

/-- Modelled from the spec: `pydoctor.mro.mro(cls, getbases)` (not under
`src/`) — C3 linearization: a class followed by the merge of its bases'
linearizations and the list of its direct bases. -/
def linearizeF : Nat → System → Nat ⊕ String → Except PyErr (List (Nat ⊕ String))
  | 0, _, _ => .error .recursionError
  | f + 1, sys, c =>
    let bs := getbasesF (f + 1) sys c
    match bs.mapM (fun b => linearizeF f sys b) with
    | .error e => .error e
    | .ok ls =>
      match c3Merge ((ls.foldl (fun a l => a + l.length) 0) + bs.length + 1)
          (ls ++ [bs]) with
      | .error e => .error e
      | .ok merged => .ok (c :: merged)

/-- `compute_mro(cls)`: run `init_finalbaseobjects(cls)` (threading its
mutations), then hand the class to the C3 linearization. -/
def computeMroF (f : Nat) (sys : System) (clsId : Nat) :
    System × Except PyErr (List (Nat ⊕ String)) :=
  match initFinalBaseObjects f sys clsId clsId [] with
  | (sys', some e) => (sys', .error e)
  | (sys', none) => (sys', linearizeF f sys' (.inl clsId))

/-- `Class._init_mro()`: store `compute_mro`'s result in `_mro`; on
`ValueError` report the message as an `'mro'` diagnostic and fall back to
`list(self.allbases(True))`.  Any other exception (hence `RecursionError`)
propagates. -/
def initMro (f : Nat) (sys : System) (clsId : Nat) : Except PyErr System :=
  match computeMroF f sys clsId with
  | (sys', .ok m) =>
    match getObj sys' clsId with
    | some d => .ok (setObj sys' clsId { d with _mro := some m })
    | none => .ok sys'
  | (sys', .error (.valueError msg)) =>
    let sys'' := { sys' with diags := sys'.diags ++ [msg] }
    match getObj sys'' clsId with
    | some d =>
      .ok (setObj sys'' clsId
        { d with _mro := some ((allbasesF f sys'' clsId true).map Sum.inl) })
    | none => .ok sys''
  | (_, .error e) => .error e

/-! ### Annotation normalization
(`astutils._UpgradeDeprecatedAnnotations`) -/

/-- The constants appearing in annotations (`ast.Constant.value`). -/
inductive PyConst : Type
  | noneC
  | strC (s : String)
  | intC (n : Int)
deriving DecidableEq, Repr

/-- The fragment of the Python `ast.expr` grammar the annotation upgrader
inspects: names, attribute chains, constants, subscripts, tuples, and binary
union nodes (`ast.BinOp` with `ast.BitOr`, the only operator the transformer
produces or matches). -/
inductive PyExpr : Type
  | name (id : String)
  | attribute (value : PyExpr) (attr : String)
  | constant (c : PyConst)
  | subscript (value slice : PyExpr)
  | tuple (elts : List PyExpr)
  | binop (left right : PyExpr)

/-- `astutils.node2dottedname(node)`: the dotted name of a
`Name`/`Attribute` chain, or `none`. -/
def node2dottedname : PyExpr → Option (List String)
  | .name i => some [i]
  | .attribute v a =>
    match node2dottedname v with
    | some parts => some (parts ++ [a])
    | none => none
  | _ => none

/-- `DEPRECATED_TYPING_ALIAS_BUILTINS` from `astutils.py`. -/
def DEPRECATED_TYPING_ALIAS_BUILTINS : List (String × String) :=
  [("typing.Text", "str"),
   ("typing.Dict", "dict"),
   ("typing.Tuple", "tuple"),
   ("typing.Type", "type"),
   ("typing.List", "list"),
   ("typing.Set", "set"),
   ("typing.FrozenSet", "frozenset")]

/-- `_UpgradeDeprecatedAnnotations._union_args_to_bitor(args)`: fold the
argument list into a left-associative chain of `BitOr` nodes (the source
splits `*others, right` and recurses on `others`, which is exactly a left
fold; it asserts `len(args) > 1`). -/
def unionArgsToBitor : List PyExpr → PyExpr
  | [] => .constant .noneC
  | a :: rest => rest.foldl .binop a

/-- The `node2fullname` resolver that the transformer closes over
(`ctx.expandAnnotationName` composed with `node2dottedname`), abstracted as a
function from dotted names to full names. -/
def resolveDotted (resolve : String → String) (e : PyExpr) : Option String :=
  (node2dottedname e).map (fun parts => resolve (strJoin "." parts))

mutual

/-- `_UpgradeDeprecatedAnnotations.visit`: `ast.NodeTransformer` dispatch.
`visit_Name`/`visit_Attribute` rewrite deprecated `typing` aliases to their
builtin names and otherwise return the node unvisited; `visit_Subscript`
rewrites `typing.Union[...]`/`typing.Optional[...]` into `BitOr` chains;
every other node gets the generic child-visiting transform. -/
def upgradeVisit (resolve : String → String) : PyExpr → PyExpr
  | .name i =>
    match (resolveDotted resolve (.name i)).bind
        (fun fn => dictGet DEPRECATED_TYPING_ALIAS_BUILTINS fn) with
    | some builtin => .name builtin
    | none => .name i
  | .attribute v a =>
    match (resolveDotted resolve (.attribute v a)).bind
        (fun fn => dictGet DEPRECATED_TYPING_ALIAS_BUILTINS fn) with
    | some builtin => .name builtin
    | none => .attribute v a
  | .subscript value slice =>
    let value' := upgradeVisit resolve value
    let slice' := upgradeVisit resolve slice
    match resolveDotted resolve value' with
    | some "typing.Union" =>
      -- Union[(x, y, …)] / Union[x]
      (match slice' with
       | .tuple args =>
         if args.length > 1 then unionArgsToBitor args
         else
           match args with
           | [a] => a
           | _ => .subscript value' slice'
       | .attribute v a => .attribute v a
       | .name i => .name i
       | .subscript v s => .subscript v s
       | .binop l r => .binop l r
       | _ => .subscript value' slice')
    | some "typing.Optional" =>
      -- Optional[x] for a single type x
      (match slice' with
       | .attribute v a => unionArgsToBitor [.attribute v a, .constant .noneC]
       | .name i => unionArgsToBitor [.name i, .constant .noneC]
       | .subscript v s => unionArgsToBitor [.subscript v s, .constant .noneC]
       | .binop l r => unionArgsToBitor [.binop l r, .constant .noneC]
       | _ => .subscript value' slice')
    | _ => .subscript value' slice'
  | .constant c => .constant c
  | .tuple elts => .tuple (upgradeVisitList resolve elts)
  | .binop l r => .binop (upgradeVisit resolve l) (upgradeVisit resolve r)

/-- `generic_visit` over the children of an `ast.Tuple`. -/
def upgradeVisitList (resolve : String → String) : List PyExpr → List PyExpr
  | [] => []
  | e :: es => upgradeVisit resolve e :: upgradeVisitList resolve es

end

/-- `astutils.upgrade_annotation(node, ctx)`. -/
def upgrade_annotation (resolve : String → String) (node : PyExpr) : PyExpr :=
  upgradeVisit resolve node

/-! ### The processing scheduler (`System.process`, `System.processModule`,
`System.getProcessedModule`)

The per-module builder work (`pydoctor/astbuilder.py`) is not under `src/`,
so it is modelled from the spec as an abstract contribution: the entries a
module's processing registers in the fullName index (a fixed function of the
module alone — "the Object-Model Builder walks the tree creating entities"),
plus the set of module names it forces through `getProcessedModule` while
resolving cross-module references ("resolution requests recursively force
processing of whatever module is needed"). -/

/-- Modelled from the spec: the Object-Model Builder's per-module effect. -/
structure BuilderModel : Type where
  contrib : String → List (String × Nat)
  deps : String → List String

/-- The scheduler-visible state: per-module `ProcessingState`, the
`unprocessed_modules` queue (FIFO discovery order), and the accumulated
fullName index. -/
structure SchedState : Type where
  states : List (String × ProcessingState)
  unprocessed : List String
  index : List (String × Nat)
deriving DecidableEq, Repr

mutual

/-- `System.processModule(mod)`: mark `PROCESSING`, dequeue, run the builder
(which may force dependencies through `getProcessedModule`), register the
module's entities, mark `PROCESSED`. -/
def processModuleS (B : BuilderModel) : Nat → SchedState → String → SchedState
  | 0, st, _ => st
  | f + 1, st, m =>
    let st1 : SchedState :=
      { st with
        states := dictSet st.states m .PROCESSING,
        unprocessed := st.unprocessed.erase m }
    let st2 := (B.deps m).foldl (fun s d => getProcessedModuleS B f s d) st1
    { st2 with
      index := st2.index ++ B.contrib m,
      states := dictSet st2.states m .PROCESSED }
termination_by f => (f, 0)

/-- `System.getProcessedModule(modname)`: force processing of a module that
is still `UNPROCESSED`; a module that is unknown, already `PROCESSING`
(an import cycle) or `PROCESSED` is left alone. -/
def getProcessedModuleS (B : BuilderModel) : Nat → SchedState → String → SchedState
  | f, st, m =>
    match dictGet st.states m with
    | some .UNPROCESSED => processModuleS B f st m
    | _ => st
termination_by f => (f, 1)

end

/-- `System.process()`: drain the queue head-first, then (not modelled here)
run post-processing. -/
def drainS (B : BuilderModel) : Nat → SchedState → SchedState
  | 0, st => st
  | f + 1, st =>
    match st.unprocessed with
    | [] => st
    | m :: _ => drainS B f (processModuleS B (f + 1) st m)

/-- The state after discovery of the modules `mods`, in discovery order:
everything `UNPROCESSED` and queued FIFO. -/
def initialSched (mods : List String) : SchedState :=
  { states := mods.map (fun m => (m, .UNPROCESSED)),
    unprocessed := mods,
    index := [] }

/-- Building a system from the discovery order `mods`: drain the whole
queue, with enough fuel for every module. -/
def buildAll (B : BuilderModel) (mods : List String) : SchedState :=
  drainS B (mods.length + 1) (initialSched mods)

/-! ## Claims -/

/-- Claim C10: for every `Module` (or `Package`) whose local name is
`__main__`, the `privacyClass` property returns `PRIVATE` unconditionally —
the underscore default, the user pattern rules, and the per-fullName privacy
cache are never consulted (the returned system is unchanged, so the cache is
not even read into the result), for every cache and pattern configuration. -/
theorem claim_C10 (f : Nat) (sys : System) (obId : Nat) (d : ObjData)
    (hobj : getObj sys obId = some d)
    (hmod : isModuleCls d.cls = true)
    (hname : d.name = "__main__") :
    documentablePrivacyClass f sys obId = (.PRIVATE, sys) := by
  unfold documentablePrivacyClass
  rw [hobj]
  simp [hmod, hname]

/-- A concrete `__main__` module, with a cache entry and pattern rules that
would both say `PUBLIC`: the property still answers `PRIVATE`. -/
def wC10sys : System :=
  { objs := [(1, { cls := .module, name := "__main__", kind := some .MODULE })],
    _privacyClassCache := [("__main__", .PUBLIC)],
    options_privacy := [(.PUBLIC, "__main__")] }

theorem claim_C10_witness :
    documentablePrivacyClass 5 wC10sys 1 = (.PRIVATE, wC10sys) :=
  claim_C10 5 wC10sys 1
    { cls := .module, name := "__main__", kind := some .MODULE }
    (by decide) (by decide) (by decide)

/-- The spec's privacy scenario: `pkg.mod._impl` containing `thing` and
`other`, with pattern list `[(PRIVATE, "*._impl"), (PUBLIC,
"pkg.mod._impl.thing")]`. -/
def c9sys : System :=
  { objs := [
      (2, { cls := .klass, name := "thing", parent := some 5, kind := some .CLASS }),
      (3, { cls := .klass, name := "other", parent := some 5, kind := some .CLASS }),
      (5, { cls := .module, name := "_impl", parent := some 6, kind := some .MODULE,
            contents := [("thing", 2), ("other", 3)] }),
      (6, { cls := .module, name := "mod", parent := some 7, kind := some .MODULE }),
      (7, { cls := .module, name := "pkg", kind := some .PACKAGE }),
      (8, { cls := .klass, name := "_priv", parent := some 6, kind := some .CLASS })],
    options_privacy := [(.PRIVATE, "*._impl"), (.PUBLIC, "pkg.mod._impl.thing")] }

/-- Claim C9, counterexample: with the spec's own pattern list, the name
`pkg.mod._impl.other` is classified `PUBLIC`, not `PRIVATE` as claimed: the
glob `*._impl` does not match it (the name does not end in `._impl`), no
exact rule names it, and its local name `other` has no leading
underscore. -/
theorem claim_C9_counterexample :
    (systemPrivacyClass 10 c9sys 3).1 = .PUBLIC ∧
      ¬(systemPrivacyClass 10 c9sys 3).1 = .PRIVATE := by
  constructor
  · decide
  · decide

/-- Claim C9, amended: a leading-underscore non-dunder name defaults to
`PRIVATE`; the ordered pattern list overrides the default with exact matches
checked before glob matches and, within each kind, the last declared rule
winning (the source scans `reversed(options.privacy)` and stops at the first
hit); with the pattern list `[(PRIVATE, "*._impl"), (PUBLIC,
"pkg.mod._impl.thing")]` the name `pkg.mod._impl.thing` is classified
`PUBLIC`, while `pkg.mod._impl.other` is classified `PUBLIC` as well (not
`PRIVATE`: no rule matches it and its local name carries no underscore). -/
theorem claim_C9_amended :
    (∀ f (sys : System) obId ob k pm,
      getObj sys obId = some ob →
      dictGet sys._privacyClassCache (fullNameF f sys obId) = none →
      ob.kind = some k →
      sys.options_privacy.reverse.find?
        (fun r => r.2 == fullNameF f sys obId) = some pm →
      (systemPrivacyClass f sys obId).1 = pm.1) ∧
    (∀ f (sys : System) obId ob k pm,
      getObj sys obId = some ob →
      dictGet sys._privacyClassCache (fullNameF f sys obId) = none →
      ob.kind = some k →
      sys.options_privacy.reverse.find?
        (fun r => r.2 == fullNameF f sys obId) = none →
      sys.options_privacy.reverse.find?
        (fun r => qnmatch (fullNameF f sys obId) r.2) = some pm →
      (systemPrivacyClass f sys obId).1 = pm.1) ∧
    (∀ f (sys : System) obId ob k,
      getObj sys obId = some ob →
      dictGet sys._privacyClassCache (fullNameF f sys obId) = none →
      ob.kind = some k →
      sys.options_privacy.reverse.find?
        (fun r => r.2 == fullNameF f sys obId) = none →
      sys.options_privacy.reverse.find?
        (fun r => qnmatch (fullNameF f sys obId) r.2) = none →
      strStartsWith ob.name "_" = true →
      ¬(strStartsWith ob.name "__" = true ∧ strEndsWith ob.name "__" = true) →
      (systemPrivacyClass f sys obId).1 = .PRIVATE) ∧
    (systemPrivacyClass 10 c9sys 2).1 = .PUBLIC ∧
    (systemPrivacyClass 10 c9sys 3).1 = .PUBLIC := by
  refine ⟨?_, ?_, ?_, by decide, by decide⟩
  · intro f sys obId ob k pm hob hcache hkind hexact
    unfold systemPrivacyClass
    simp only [hob, hcache, hkind, hexact]
  · intro f sys obId ob k pm hob hcache hkind hexact hglob
    unfold systemPrivacyClass
    simp only [hob, hcache, hkind, hexact, hglob]
  · intro f sys obId ob k hob hcache hkind hexact hglob hus hnd
    unfold systemPrivacyClass
    simp only [hob, hcache, hkind, hexact, hglob]
    simp [hus, hnd]

/-- Witness for the amended C9: applies the exact-match clause, the glob
clause, and the underscore-default clause at concrete inputs. -/
theorem claim_C9_amended_witness :
    (systemPrivacyClass 10 c9sys 2).1 = .PUBLIC ∧
      (systemPrivacyClass 10 c9sys 5).1 = .PRIVATE ∧
      (systemPrivacyClass 10 c9sys 8).1 = .PRIVATE := by
  refine ⟨?_, ?_, ?_⟩
  · exact claim_C9_amended.1 10 c9sys 2
      { cls := .klass, name := "thing", parent := some 5, kind := some .CLASS }
      .CLASS (.PUBLIC, "pkg.mod._impl.thing")
      (by decide) (by decide) (by decide) (by decide)
  · exact claim_C9_amended.2.1 10 c9sys 5
      { cls := .module, name := "_impl", parent := some 6, kind := some .MODULE,
        contents := [("thing", 2), ("other", 3)] }
      .MODULE (.PRIVATE, "*._impl")
      (by decide) (by decide) (by decide) (by decide) (by decide)
  · exact claim_C9_amended.2.2.1 10 c9sys 8
      { cls := .klass, name := "_priv", parent := some 6, kind := some .CLASS }
      .CLASS
      (by decide) (by decide) (by decide) (by decide) (by decide)
      (by decide) (by decide)

/-- The slice shapes `visit_Subscript` accepts for the
`Union`/`Optional` rewrites (`ast.Attribute`, `ast.Name`, `ast.Subscript`,
`ast.BinOp`). -/
def allowedSliceShape (x : PyExpr) : Prop :=
  (∃ a b, x = .attribute a b) ∨ (∃ i, x = .name i) ∨
    (∃ a b, x = .subscript a b) ∨ (∃ a b, x = .binop a b)

/-- Claim C6: annotation normalization rewrites `Union[A, B, …]` into a
left-associative chain of binary `BitOr` nodes and `Optional[X]` into the
union of `X` and `None`; consequently `Optional[int]` and `Union[int, None]`
normalize to the same canonical union representation.  Stated for every
resolver that maps `Optional`/`Union` to their `typing` fullnames and leaves
`int` unaliased. -/
theorem claim_C6 :
    -- the chain is left-associative: prepending folds from the left
    (∀ (a b : PyExpr) (rest : List PyExpr),
      unionArgsToBitor (a :: b :: rest) = unionArgsToBitor (.binop a b :: rest)) ∧
    (∀ a b c : PyExpr, unionArgsToBitor [a, b, c] = .binop (.binop a b) c) ∧
    -- Optional[x] → x | None for every accepted slice shape
    (∀ (resolve : String → String) (v s : PyExpr),
      resolveDotted resolve (upgradeVisit resolve v) = some "typing.Optional" →
      allowedSliceShape (upgradeVisit resolve s) →
      upgradeVisit resolve (.subscript v s) =
        .binop (upgradeVisit resolve s) (.constant .noneC)) ∧
    -- Union[(a₁, …, aₙ)] (n ≥ 2) → left-associative BitOr chain of the aᵢ
    (∀ (resolve : String → String) (v : PyExpr) (elts : List PyExpr),
      resolveDotted resolve (upgradeVisit resolve v) = some "typing.Union" →
      (upgradeVisitList resolve elts).length > 1 →
      upgradeVisit resolve (.subscript v (.tuple elts)) =
        unionArgsToBitor (upgradeVisitList resolve elts)) ∧
    -- the round-trip: Optional[int] and Union[int, None] coincide
    (∀ resolve : String → String,
      resolve "Optional" = "typing.Optional" →
      resolve "Union" = "typing.Union" →
      resolve "int" = "int" →
      upgradeVisit resolve (.subscript (.name "Optional") (.name "int")) =
          upgradeVisit resolve
            (.subscript (.name "Union") (.tuple [.name "int", .constant .noneC])) ∧
        upgradeVisit resolve (.subscript (.name "Optional") (.name "int")) =
          .binop (.name "int") (.constant .noneC)) := by
  refine ⟨?_, ?_, ?_, ?_, ?_⟩
  · intro a b rest
    simp [unionArgsToBitor]
  · intro a b c
    simp [unionArgsToBitor]
  · intro resolve v s hv hshape
    rcases hshape with ⟨a, b, hx⟩ | ⟨i, hx⟩ | ⟨a, b, hx⟩ | ⟨a, b, hx⟩ <;>
      · simp only [upgradeVisit, hx, hv]
        simp [unionArgsToBitor]
  · intro resolve v elts hv hlen
    simp only [upgradeVisit, hv]
    simp [hlen]
  · intro resolve hO hU hI
    constructor
    · simp [upgradeVisit, upgradeVisitList, resolveDotted, node2dottedname,
        strJoin, hO, hU, hI, dictGet, DEPRECATED_TYPING_ALIAS_BUILTINS,
        unionArgsToBitor]
    · simp [upgradeVisit, upgradeVisitList, resolveDotted, node2dottedname,
        strJoin, hO, hI, dictGet, DEPRECATED_TYPING_ALIAS_BUILTINS,
        unionArgsToBitor]

/-- Witness: the round-trip equality at the identity-with-typing resolver. -/
def c6resolve : String → String :=
  fun s =>
    if s = "Optional" then "typing.Optional"
    else if s = "Union" then "typing.Union" else s

theorem claim_C6_witness :
    upgradeVisit c6resolve (.subscript (.name "Optional") (.name "int")) =
        upgradeVisit c6resolve
          (.subscript (.name "Union") (.tuple [.name "int", .constant .noneC])) ∧
      upgradeVisit c6resolve (.subscript (.name "Optional") (.name "int")) =
        .binop (.name "int") (.constant .noneC) :=
  (claim_C6.2.2.2.2 c6resolve (by rfl) (by rfl) (by rfl))

/-! ### Support lemmas: what `_remove` does to the index -/

/-- The `fullName` keys that `System._remove(o)` deletes: `o`'s own current
fullName followed by those of its descendants, in visiting order. -/
def removedKeys : Nat → System → Nat → List String
  | 0, _, _ => []
  | f + 1, sys, i =>
    match getObj sys i with
    | none => []
    | some d =>
      fullNameF (f + 1) sys i :: d.contents.flatMap (fun c => removedKeys f sys c.2)

/-- `fullName` only reads the arena, never the index. -/
theorem fullNameF_congr (f : Nat) (sys sys' : System) (h : sys.objs = sys'.objs) :
    ∀ i, fullNameF f sys i = fullNameF f sys' i := by
  induction f with
  | zero => intro i; rfl
  | succ f ih =>
    intro i
    show fullNameF (f + 1) sys i = fullNameF (f + 1) sys' i
    unfold fullNameF
    unfold getObj
    rw [h]
    cases dictGet sys'.objs i with
    | none => rfl
    | some d => simp only [ih]

theorem removedKeys_congr (f : Nat) (sys sys' : System) (h : sys.objs = sys'.objs) :
    ∀ i, removedKeys f sys i = removedKeys f sys' i := by
  induction f with
  | zero => intro i; rfl
  | succ f ih =>
    intro i
    show removedKeys (f + 1) sys i = removedKeys (f + 1) sys' i
    unfold removedKeys
    unfold getObj
    rw [h]
    cases dictGet sys'.objs i with
    | none => rfl
    | some d => simp only [fullNameF_congr (f + 1) sys sys' h, ih]

/-- `_remove` changes nothing but `allobjects`. -/
def eraseIndex (s : System) : System := { s with allobjects := [] }

theorem removeF_eraseIndex :
    ∀ f sys i, eraseIndex (removeF f sys i) = eraseIndex sys := by
  intro f
  induction f with
  | zero => intro sys i; rfl
  | succ f ih =>
    intro sys i
    show eraseIndex (removeF (f + 1) sys i) = eraseIndex sys
    unfold removeF
    cases hobj : getObj sys i with
    | none => rfl
    | some d =>
      have aux : ∀ (l : List (String × Nat)) (s : System),
          eraseIndex (l.foldl (fun s c => removeF f s c.2) s) = eraseIndex s := by
        intro l
        induction l with
        | nil => intro s; rfl
        | cons c l ihl =>
          intro s
          simp only [List.foldl_cons]
          rw [ihl (removeF f s c.2), ih s c.2]
      rw [aux]
      rfl

theorem removeF_objs (f : Nat) (sys : System) (i : Nat) :
    (removeF f sys i).objs = sys.objs := by
  have h := congrArg System.objs (removeF_eraseIndex f sys i)
  exact h

theorem removeF_diags (f : Nat) (sys : System) (i : Nat) :
    (removeF f sys i).diags = sys.diags := by
  have h := congrArg System.diags (removeF_eraseIndex f sys i)
  exact h

theorem removeF_unprocessed (f : Nat) (sys : System) (i : Nat) :
    (removeF f sys i).unprocessed_modules = sys.unprocessed_modules := by
  have h := congrArg System.unprocessed_modules (removeF_eraseIndex f sys i)
  exact h

theorem removeF_rootobjects (f : Nat) (sys : System) (i : Nat) :
    (removeF f sys i).rootobjects = sys.rootobjects := by
  have h := congrArg System.rootobjects (removeF_eraseIndex f sys i)
  exact h

theorem removeF_modules (f : Nat) (sys : System) (i : Nat) :
    (removeF f sys i).modules = sys.modules := by
  have h := congrArg System.modules (removeF_eraseIndex f sys i)
  exact h

theorem removeF_module_count (f : Nat) (sys : System) (i : Nat) :
    (removeF f sys i).module_count = sys.module_count := by
  have h := congrArg System.module_count (removeF_eraseIndex f sys i)
  exact h

/-- `_remove` deletes exactly `removedKeys` from the index, in order. -/
theorem removeF_allobjects :
    ∀ f sys i, (removeF f sys i).allobjects =
      (removedKeys f sys i).foldl dictDel sys.allobjects := by
  intro f
  induction f with
  | zero => intro sys i; rfl
  | succ f ih =>
    intro sys i
    show (removeF (f + 1) sys i).allobjects = _
    unfold removeF removedKeys
    cases hobj : getObj sys i with
    | none => rfl
    | some d =>
      have aux : ∀ (l : List (String × Nat)) (s : System), s.objs = sys.objs →
          (l.foldl (fun s c => removeF f s c.2) s).allobjects =
            (l.flatMap (fun c => removedKeys f sys c.2)).foldl dictDel s.allobjects := by
        intro l
        induction l with
        | nil => intro s _; rfl
        | cons c l ihl =>
          intro s hs
          simp only [List.foldl_cons, List.flatMap_cons, List.foldl_append]
          rw [ihl (removeF f s c.2)
              (by rw [removeF_objs]; exact hs),
            ih s c.2,
            removedKeys_congr f s sys hs c.2]
      simp only [List.foldl_cons]
      exact aux d.contents
        { sys with allobjects := dictDel sys.allobjects (fullNameF (f + 1) sys i) }
        rfl

/-- Looking up after a batch of deletions. -/
theorem dictGet_foldl_dictDel {α : Type} :
    ∀ (ks : List String) (l : List (String × α)) (k : String),
      dictGet (ks.foldl dictDel l) k = if k ∈ ks then none else dictGet l k := by
  intro ks
  induction ks with
  | nil => intro l k; simp
  | cons k0 ks ih =>
    intro l k
    simp only [List.foldl_cons]
    rw [ih]
    by_cases hk : k ∈ ks
    · simp [hk]
    · by_cases hk0 : k = k0
      · subst hk0; simp [hk, dictGet_dictDel_self]
      · simp [hk, hk0, dictGet_dictDel_ne l k0 k (Ne.symm hk0)]

/-- Claim C5: when two root modules collide on the same fullName,
a natively-compiled (C) module beats a source module, a package beats a plain
module, and otherwise the most-recently-added module wins: the previous
module and its entire subtree are deleted from the fullName index outright —
the arena is untouched (no disambiguating rename) and the loser is no longer
reachable under any index key — while the winner is enqueued under the
canonical key. -/
theorem claim_C5 (f : Nat) (sys : System) (firstId dupId : Nat) (fd dd : ObjData)
    (hfirst : getObj sys firstId = some fd)
    (hdup : getObj sys dupId = some dd)
    (hfp : fd.parent = none)
    (hdp : dd.parent = none)
    (hdmod : isModuleCls dd.cls = true)
    (hname : dd.name = fd.name)
    (hcoll : dictGet sys.allobjects dd.name = some firstId)
    (hidx : ∀ k, dictGet sys.allobjects k = some firstId →
      k ∈ removedKeys (f + 2) sys firstId)
    (hne : firstId ≠ dupId) :
    (fd._is_c_module = true → isPackageCls dd.cls = false →
      addUnprocessedModule (f + 3) sys dupId =
        .ok { sys with diags := sys.diags ++ ["duplicate " ++ fd.name] }) ∧
    (¬(fd._is_c_module = true ∧ isPackageCls dd.cls = false) →
      isPackageCls fd.cls = true → isPackageCls dd.cls = false →
      addUnprocessedModule (f + 3) sys dupId =
        .ok { sys with diags := sys.diags ++ ["duplicate " ++ fd.name] }) ∧
    (¬(fd._is_c_module = true ∧ isPackageCls dd.cls = false) →
      ¬(isPackageCls fd.cls = true ∧ isPackageCls dd.cls = false) →
      ∃ sys', addUnprocessedModule (f + 3) sys dupId = .ok sys' ∧
        dictGet sys'.allobjects dd.name = some dupId ∧
        (∀ k, k ∈ removedKeys (f + 2) sys firstId → k ≠ dd.name →
          dictGet sys'.allobjects k = none) ∧
        (∀ k, ¬ dictGet sys'.allobjects k = some firstId) ∧
        sys'.unprocessed_modules = sys.unprocessed_modules.erase firstId ++ [dupId] ∧
        sys'.objs = sys.objs ∧
        sys'.diags = sys.diags ++ ["duplicate " ++ fd.name]) := by
  have hFdup : fullNameF (f + 3) sys dupId = dd.name := by
    unfold fullNameF
    rw [hdup]
    simp only [hdp]
  have hFfirst : fullNameF (f + 2) sys firstId = fd.name := by
    unfold fullNameF
    rw [hfirst]
    simp only [hfp]
  have hstep1 : addUnprocessedModule (f + 3) sys dupId =
      handleDuplicateModule (f + 2) sys firstId dupId := by
    unfold addUnprocessedModule
    rw [hdup, hFdup, hcoll]
  refine ⟨?_, ?_, ?_⟩
  · intro hc hpk
    rw [hstep1]
    unfold handleDuplicateModule
    rw [hfirst, hdup, hFfirst]
    simp [hc, hpk]
  · intro hnc hpf hpk
    rw [hstep1]
    unfold handleDuplicateModule
    rw [hfirst, hdup, hFfirst]
    simp only [if_neg hnc]
    simp [hpf, hpk]
  · intro hnc hnp
    -- the "last added module wins" branch
    have hstep2 : addUnprocessedModule (f + 3) sys dupId =
        addUnprocessedModule (f + 1)
          { removeF (f + 2)
              { sys with diags := sys.diags ++ ["duplicate " ++ fd.name] } firstId with
            unprocessed_modules :=
              (removeF (f + 2)
                { sys with diags := sys.diags ++ ["duplicate " ++ fd.name] }
                firstId).unprocessed_modules.erase firstId }
          dupId := by
      rw [hstep1]
      unfold handleDuplicateModule
      rw [hfirst, hdup, hFfirst]
      simp only [if_neg hnc, if_neg hnp]
    set sys1 : System := { sys with diags := sys.diags ++ ["duplicate " ++ fd.name] }
      with hsys1
    set sys3 : System := { removeF (f + 2) sys1 firstId with
      unprocessed_modules :=
        (removeF (f + 2) sys1 firstId).unprocessed_modules.erase firstId }
      with hsys3
    have hobjs3 : sys3.objs = sys.objs := by
      rw [hsys3]
      show (removeF (f + 2) sys1 firstId).objs = sys.objs
      rw [removeF_objs]
    have hgetdup3 : getObj sys3 dupId = some dd := by
      unfold getObj
      rw [hobjs3]
      exact hdup
    have hFdup1 : fullNameF (f + 1) sys3 dupId = dd.name := by
      unfold fullNameF
      rw [hgetdup3]
      simp only [hdp]
    have hall3 : sys3.allobjects =
        (removedKeys (f + 2) sys firstId).foldl dictDel sys.allobjects := by
      rw [hsys3]
      show (removeF (f + 2) sys1 firstId).allobjects = _
      rw [removeF_allobjects,
        removedKeys_congr (f + 2) sys1 sys (by rfl) firstId]
    have hmemhead : dd.name ∈ removedKeys (f + 2) sys firstId := by
      unfold removedKeys
      rw [hfirst, hFfirst, hname]
      exact List.mem_cons_self _ _
    have hlook3 : dictGet sys3.allobjects dd.name = none := by
      rw [hall3, dictGet_foldl_dictDel]
      simp [hmemhead]
    have hq3 : sys3.unprocessed_modules =
        sys.unprocessed_modules.erase firstId := by
      rw [hsys3]
      show (removeF (f + 2) sys1 firstId).unprocessed_modules.erase firstId = _
      rw [removeF_unprocessed]
    have hd3 : sys3.diags = sys.diags ++ ["duplicate " ++ fd.name] := by
      rw [hsys3]
      show (removeF (f + 2) sys1 firstId).diags = _
      rw [removeF_diags]
    set sys4 : System := { sys3 with
      unprocessed_modules := sys3.unprocessed_modules ++ [dupId] } with hsys4
    have hgetdup4 : getObj sys4 dupId = some dd := hgetdup3
    have hFdup4 : fullNameF (f + 1) sys4 dupId = dd.name := by
      unfold fullNameF
      rw [hgetdup4]
      simp only [hdp]
    have hstep3 : addUnprocessedModule (f + 1) sys3 dupId =
        match addObject (f + 1) sys4 dupId with
        | .error e => .error e
        | .ok sys2 => .ok { sys2 with module_count := sys2.module_count + 1 } := by
      unfold addUnprocessedModule
      rw [hgetdup3, hFdup1, hlook3]
    have hstep4 : addObject (f + 1) sys4 dupId =
        .ok { sys4 with
          modules := dictSet sys4.modules dd.name dupId,
          rootobjects := sys4.rootobjects ++ [dupId],
          allobjects := dictSet sys4.allobjects dd.name dupId } := by
      have hlook4 : dictGet sys4.allobjects dd.name = none := hlook3
      unfold addObject
      rw [hgetdup4]
      simp only [hFdup4, hdmod, hdp, hlook4, if_true]
    refine ⟨_, by rw [hstep2, hstep3, hstep4], ?_, ?_, ?_, ?_, ?_, ?_⟩
    · show dictGet (dictSet sys4.allobjects dd.name dupId) dd.name = some dupId
      exact dictGet_dictSet_self _ _ _
    · intro k hk hkne
      show dictGet (dictSet sys4.allobjects dd.name dupId) k = none
      rw [dictGet_dictSet_ne _ _ _ _ (Ne.symm hkne)]
      show dictGet sys3.allobjects k = none
      rw [hall3, dictGet_foldl_dictDel]
      simp [hk]
    · intro k
      show ¬ dictGet (dictSet sys4.allobjects dd.name dupId) k = some firstId
      by_cases hkd : k = dd.name
      · subst hkd
        rw [dictGet_dictSet_self]
        intro hcon
        injection hcon with h'
        exact hne h'.symm
      · rw [dictGet_dictSet_ne _ _ _ _ (Ne.symm hkd)]
        show ¬ dictGet sys3.allobjects k = some firstId
        rw [hall3, dictGet_foldl_dictDel]
        by_cases hk : k ∈ removedKeys (f + 2) sys firstId
        · simp [hk]
        · simp only [hk, if_false]
          intro hcon
          exact hk (hidx k hcon)
    · show sys4.unprocessed_modules = _
      rw [hsys4, hq3]
    · show sys4.objs = sys.objs
      exact hobjs3
    · show sys4.diags = _
      exact hd3

/-- A root module `p` (with a class `p.x` inside) already indexed, and a
newly discovered source module also named `p`. -/
def w5sys : System :=
  { allobjects := [("p", 1), ("p.x", 2)],
    objs := [
      (1, { cls := .module, name := "p", contents := [("x", 2)], kind := some .MODULE }),
      (2, { cls := .klass, name := "x", parent := some 1, kind := some .CLASS }),
      (3, { cls := .module, name := "p", kind := some .MODULE })],
    rootobjects := [1],
    unprocessed_modules := [1] }

theorem claim_C5_witness :
    ∃ sys', addUnprocessedModule 5 w5sys 3 = .ok sys' ∧
      dictGet sys'.allobjects "p" = some 3 ∧
      (∀ k, k ∈ removedKeys 4 w5sys 1 → k ≠ "p" →
        dictGet sys'.allobjects k = none) ∧
      (∀ k, ¬ dictGet sys'.allobjects k = some 1) ∧
      sys'.unprocessed_modules = w5sys.unprocessed_modules.erase 1 ++ [3] ∧
      sys'.objs = w5sys.objs ∧
      sys'.diags = w5sys.diags ++ ["duplicate " ++ "p"] := by
  have h := (claim_C5 2 w5sys 1 3
      { cls := .module, name := "p", contents := [("x", 2)], kind := some .MODULE }
      { cls := .module, name := "p", kind := some .MODULE }
      (by decide) (by decide) (by decide) (by decide) (by decide) (by decide)
      (by decide)
      (fun k hk => by
        by_cases h1 : ("p" : String) = k
        · subst h1; decide
        · by_cases h2 : ("p.x" : String) = k
          · subst h2
            simp [dictGet, w5sys] at hk
          · simp [dictGet, w5sys, h1, h2] at hk)
      (by decide)).2.2 (by decide) (by decide)
  exact h

/-! ### Support lemmas for `handleDuplicate`: parent-chain stability -/

/-- The object ids on the `parent` chain starting at `j` (inclusive). -/
def parentChainF : Nat → System → Nat → List Nat
  | 0, _, _ => []
  | f + 1, sys, j =>
    j ::
      (match getObj sys j with
       | some d =>
         match d.parent with
         | some p => parentChainF f sys p
         | none => []
       | none => [])

theorem parentChainF_congr (f : Nat) (sys sys' : System)
    (h : sys.objs = sys'.objs) : ∀ j, parentChainF f sys j = parentChainF f sys' j := by
  induction f with
  | zero => intro j; rfl
  | succ f ih =>
    intro j
    show parentChainF (f + 1) sys j = parentChainF (f + 1) sys' j
    unfold parentChainF
    unfold getObj
    rw [h]
    cases dictGet sys'.objs j with
    | none => rfl
    | some d => simp only [ih]

/-- Overwriting an object that is not on `j`'s parent chain does not change
`j`'s fullName. -/
theorem fullNameF_setObj_of_not_mem_chain (i : Nat) (d : ObjData) :
    ∀ (f : Nat) (sys : System) (j : Nat), i ∉ parentChainF f sys j →
      fullNameF f (setObj sys i d) j = fullNameF f sys j := by
  intro f
  induction f with
  | zero => intro sys j _; rfl
  | succ f ih =>
    intro sys j hmem
    have hij : i ≠ j := by
      intro h
      exact hmem (by rw [h]; unfold parentChainF; exact List.mem_cons_self _ _)
    have hget : getObj (setObj sys i d) j = getObj sys j := by
      unfold getObj setObj
      exact dictGet_dictSet_ne _ _ _ _ hij
    show fullNameF (f + 1) (setObj sys i d) j = fullNameF (f + 1) sys j
    unfold fullNameF
    rw [hget]
    cases hobj : getObj sys j with
    | none => rfl
    | some dj =>
      dsimp only
      cases hpar : dj.parent with
      | none => rfl
      | some p =>
        have hrest : i ∉ parentChainF f sys p := by
          intro hc
          apply hmem
          unfold parentChainF
          rw [hobj]
          dsimp only
          rw [hpar]
          exact List.mem_cons_of_mem _ hc
        dsimp only
        rw [ih sys p hrest]

/-- `readd` changes nothing but `allobjects`. -/
theorem readdF_eraseIndex :
    ∀ f sys i, eraseIndex (readdF f sys i) = eraseIndex sys := by
  intro f
  induction f with
  | zero => intro sys i; rfl
  | succ f ih =>
    intro sys i
    show eraseIndex (readdF (f + 1) sys i) = eraseIndex sys
    unfold readdF
    cases hobj : getObj sys i with
    | none => rfl
    | some d =>
      have aux : ∀ (l : List (String × Nat)) (s : System),
          eraseIndex (l.foldl (fun s c => readdF f s c.2) s) = eraseIndex s := by
        intro l
        induction l with
        | nil => intro s; rfl
        | cons c l ihl =>
          intro s
          simp only [List.foldl_cons]
          rw [ihl (readdF f s c.2), ih s c.2]
      rw [aux]
      rfl

theorem readdF_objs (f : Nat) (sys : System) (i : Nat) :
    (readdF f sys i).objs = sys.objs := by
  have h := congrArg System.objs (readdF_eraseIndex f sys i)
  exact h

theorem readdF_diags (f : Nat) (sys : System) (i : Nat) :
    (readdF f sys i).diags = sys.diags := by
  have h := congrArg System.diags (readdF_eraseIndex f sys i)
  exact h

theorem natStr_length_pos (n : Nat) : 0 < (natStr n).length := by
  show 0 < (natStr n).data.length
  show 0 < (decDigitsFuel (n + 1) n).length
  unfold decDigitsFuel
  by_cases h : n < 10
  · simp [h]
  · simp [h]

theorem mkDupKey_ne_base (full : String) (i : Nat) : mkDupKey full i ≠ full := by
  intro h
  have hl := congrArg String.length h
  rw [mkDupKey] at hl
  have h1 : (full ++ " " ++ natStr i).length =
      full.length + 1 + (natStr i).length := by
    simp [String.length_append]
    rfl
  have := natStr_length_pos i
  omega

theorem fullNameF_succ_eq (f : Nat) (sys : System) (i : Nat) :
    fullNameF (f + 1) sys i =
      match getObj sys i with
      | none => ""
      | some d =>
        match d.parent with
        | none => d.name
        | some p => fullNameF f sys p ++ "." ++ d.name := rfl

theorem fullNameF_decomp_none (f : Nat) (sys : System) (i : Nat) (d : ObjData)
    (h : getObj sys i = some d) (hp : d.parent = none) :
    fullNameF (f + 1) sys i = d.name := by
  rw [fullNameF_succ_eq, h]
  dsimp only
  rw [hp]

theorem fullNameF_decomp_some (f : Nat) (sys : System) (i : Nat) (d : ObjData)
    (P : Nat) (h : getObj sys i = some d) (hp : d.parent = some P) :
    fullNameF (f + 1) sys i = fullNameF f sys P ++ "." ++ d.name := by
  rw [fullNameF_succ_eq, h]
  dsimp only
  rw [hp]

/-- Claim C1: when `handleDuplicate` runs for a second documentable claiming
an occupied `fullName` (as `addObject` triggers it), afterwards the index maps
the canonical `fullName` to the new object, the earlier occupant is still
retrievable under the disambiguated key `fullName + ' ' + str(i)` — with the
counter `i` chosen by the `while` loop so that the key collides with no
pre-existing key — and exactly one diagnostic naming both definitions is
appended.  (Stated for an earlier occupant without children; the occupant's
subtree re-registration is exercised separately by `_remove`/`readd`.) -/
theorem claim_C1 (f : Nat) (sys : System) (objId prevId : Nat) (od pd : ObjData)
    (h1 : getObj sys objId = some od)
    (h2 : dictGet sys.allobjects (fullNameF (f + 1) sys objId) = some prevId)
    (h3 : getObj sys prevId = some pd)
    (h4 : pd.parent = od.parent)
    (h5 : pd.name = od.name)
    (h6 : ∀ p, od.parent = some p → prevId ∉ parentChainF f sys p)
    (h7 : pd.contents = []) :
    dictGet (handleDuplicate (f + 1) sys objId).allobjects
        (fullNameF (f + 1) sys objId) = some objId ∧
    dictGet (handleDuplicate (f + 1) sys objId).allobjects
        (mkDupKey (fullNameF (f + 1) sys objId)
          (freshSuffix (dictKeys sys.allobjects) (fullNameF (f + 1) sys objId))) =
      some prevId ∧
    mkDupKey (fullNameF (f + 1) sys objId)
        (freshSuffix (dictKeys sys.allobjects) (fullNameF (f + 1) sys objId)) ∉
      dictKeys sys.allobjects ∧
    (handleDuplicate (f + 1) sys objId).diags =
      sys.diags ++ ["duplicate " ++ fullNameF (f + 1) sys objId] := by
  have hFeq : fullNameF (f + 1) sys prevId = fullNameF (f + 1) sys objId := by
    cases hpar : od.parent with
    | none =>
      rw [fullNameF_decomp_none f sys prevId pd h3 (by rw [h4, hpar]),
        fullNameF_decomp_none f sys objId od h1 hpar, h5]
    | some P =>
      rw [fullNameF_decomp_some f sys prevId pd P h3 (by rw [h4, hpar]),
        fullNameF_decomp_some f sys objId od P h1 hpar, h5]
  -- name the intermediate states of handleDuplicate
  have hrun : handleDuplicate (f + 1) sys objId =
      (let F := fullNameF (f + 1) sys objId
       let i0 := freshSuffix (dictKeys sys.allobjects) F
       let sys1 : System :=
         { sys with diags := sys.diags ++ ["duplicate " ++ fullNameF (f + 1) sys prevId] }
       let sys2 := removeF (f + 1) sys1 prevId
       let sys3 :=
         match getObj sys2 prevId with
         | some pd' => setObj sys2 prevId { pd' with name := od.name ++ " " ++ natStr i0 }
         | none => sys2
       let sys4 := readdF (f + 1) sys3 prevId
       { sys4 with allobjects := dictSet sys4.allobjects F objId }) := by
    unfold handleDuplicate
    rw [h1]
    dsimp only
    rw [h2]
  rw [hrun]
  dsimp only
  rw [hFeq]
  have hobjs2 :
      (removeF (f + 1)
        { sys with diags := sys.diags ++ ["duplicate " ++ fullNameF (f + 1) sys objId] }
        prevId).objs = sys.objs := by
    rw [removeF_objs]
  set sys2 : System := removeF (f + 1)
    { sys with diags := sys.diags ++ ["duplicate " ++ fullNameF (f + 1) sys objId] }
    prevId with hsys2
  have hget2 : getObj sys2 prevId = some pd := by
    unfold getObj
    rw [hobjs2]
    exact h3
  rw [hget2]
  dsimp only
  set F := fullNameF (f + 1) sys objId with hF
  set i0 := freshSuffix (dictKeys sys.allobjects) F with hi0
  set renamed : ObjData := { pd with name := od.name ++ " " ++ natStr i0 } with hren
  set sys3 : System := setObj sys2 prevId renamed with hsys3
  have hget3 : getObj sys3 prevId = some renamed := by
    rw [hsys3]
    unfold getObj setObj
    exact dictGet_dictSet_self _ _ _
  -- the renamed occupant's new fullName is the disambiguated key
  have hrenName : renamed.name = od.name ++ " " ++ natStr i0 := by rw [hren]
  have hK : fullNameF (f + 1) sys3 prevId = mkDupKey F i0 := by
    cases hpar : od.parent with
    | none =>
      have hrp : renamed.parent = none := by rw [hren]; dsimp only; rw [h4, hpar]
      rw [fullNameF_decomp_none f sys3 prevId renamed hget3 hrp, hrenName]
      have hFval : F = od.name := by
        rw [hF]
        exact fullNameF_decomp_none f sys objId od h1 hpar
      rw [hFval, mkDupKey]
    | some P =>
      have hrp : renamed.parent = some P := by rw [hren]; dsimp only; rw [h4, hpar]
      rw [fullNameF_decomp_some f sys3 prevId renamed P hget3 hrp, hrenName]
      have hchain : prevId ∉ parentChainF f sys2 P := by
        rw [parentChainF_congr f sys2 sys hobjs2 P]
        exact h6 P hpar
      have hP3 : fullNameF f sys3 P = fullNameF f sys P := by
        rw [hsys3, fullNameF_setObj_of_not_mem_chain prevId renamed f sys2 P hchain,
          fullNameF_congr f sys2 sys hobjs2 P]
      have hFval : F = fullNameF f sys P ++ "." ++ od.name := by
        rw [hF]
        exact fullNameF_decomp_some f sys objId od P h1 hpar
      rw [hP3, hFval, mkDupKey]
      simp [String.append_assoc]
  -- readd on a childless occupant inserts exactly the disambiguated key
  have hread : readdF (f + 1) sys3 prevId =
      { sys3 with allobjects := dictSet sys3.allobjects (mkDupKey F i0) prevId } := by
    have hc : renamed.contents = [] := h7
    unfold readdF
    rw [hget3]
    dsimp only
    rw [hK, hc]
    rfl
  rw [hread]
  dsimp only
  have hKne : mkDupKey F i0 ≠ F := mkDupKey_ne_base F i0
  refine ⟨?_, ?_, ?_, ?_⟩
  · exact dictGet_dictSet_self _ _ _
  · rw [dictGet_dictSet_ne _ _ _ _ (Ne.symm hKne)]
    exact dictGet_dictSet_self _ _ _
  · exact freshSuffix_spec (dictKeys sys.allobjects) F
  · show sys3.diags = _
    rw [hsys3]
    show sys2.diags = _
    rw [hsys2, removeF_diags]

/-- A module `m` whose function `m.f` (id 2) is already indexed while a
second definition of `f` (id 3) arrives. -/
def w1sys : System :=
  { allobjects := [("m", 1), ("m.f", 2)],
    objs := [
      (1, { cls := .module, name := "m", contents := [("f", 2)] }),
      (2, { cls := .function, name := "f", parent := some 1, kind := some .FUNCTION }),
      (3, { cls := .function, name := "f", parent := some 1, kind := some .FUNCTION })],
    rootobjects := [1] }

theorem claim_C1_witness :
    dictGet (handleDuplicate 2 w1sys 3).allobjects (fullNameF 2 w1sys 3) = some 3 ∧
    dictGet (handleDuplicate 2 w1sys 3).allobjects
        (mkDupKey (fullNameF 2 w1sys 3)
          (freshSuffix (dictKeys w1sys.allobjects) (fullNameF 2 w1sys 3))) = some 2 ∧
    mkDupKey (fullNameF 2 w1sys 3)
        (freshSuffix (dictKeys w1sys.allobjects) (fullNameF 2 w1sys 3)) ∉
      dictKeys w1sys.allobjects ∧
    (handleDuplicate 2 w1sys 3).diags =
      w1sys.diags ++ ["duplicate " ++ fullNameF 2 w1sys 3] := by
  exact claim_C1 1 w1sys 3 2
    { cls := .function, name := "f", parent := some 1, kind := some .FUNCTION }
    { cls := .function, name := "f", parent := some 1, kind := some .FUNCTION }
    (by decide) (by decide) (by decide) (by decide) (by decide)
    (fun p hp => by
      injection hp with h
      subst h
      decide)
    (by decide)

/-! ### Claim C7: constructor detection -/

theorem findSome?_cons_eq {α β : Type} (f : α → Option β) (a : α) (l : List α) :
    (a :: l).findSome? f =
      match f a with
      | some b => some b
      | none => l.findSome? f := rfl

theorem exists_of_findSome?_eq_some {α β : Type} (f : α → Option β) :
    ∀ (l : List α) (b : β), l.findSome? f = some b → ∃ a ∈ l, f a = some b := by
  intro l
  induction l with
  | nil => intro b h; simp [List.findSome?] at h
  | cons a l ih =>
    intro b h
    rw [findSome?_cons_eq] at h
    cases hfa : f a with
    | some b' =>
      rw [hfa] at h
      dsimp only at h
      exact ⟨a, List.mem_cons_self _ _, by rw [hfa]; exact h⟩
    | none =>
      rw [hfa] at h
      dsimp only at h
      obtain ⟨x, hx, hfx⟩ := ih b h
      exact ⟨x, List.mem_cons_of_mem _ hx, hfx⟩

/-- Classes `B` (with `__init__`) and `D(B)` with an empty local namespace. -/
def c7sys : System :=
  { allobjects := [("m", 1), ("m.B", 2), ("m.D", 3), ("m.B.__init__", 4)],
    objs := [
      (1, { cls := .module, name := "m", contents := [("B", 2), ("D", 3)],
            kind := some .MODULE }),
      (2, { cls := .klass, name := "B", parent := some 1, kind := some .CLASS,
            contents := [("__init__", 4)] }),
      (3, { cls := .klass, name := "D", parent := some 1, kind := some .CLASS,
            rawbases := ["B"], _initialbases := ["m.B"],
            _initialbaseobjects := [some 2] }),
      (4, { cls := .function, name := "__init__", parent := some 2,
            kind := some .METHOD }),
      (5, { cls := .klass, name := "C", parent := some 1, kind := some .CLASS,
            contents := [("__new__", 6)], rawbases := ["B"],
            _initialbases := ["m.B"], _initialbaseobjects := [some 2] }),
      (6, { cls := .function, name := "__new__", parent := some 5,
            kind := some .METHOD })],
    rootobjects := [1] }

/-- Claim C7, counterexample: the claim says a dunder constructor is selected
from the class's own local namespace and "never an inherited one", but
`_find_dunder_constructor` uses `Class.find`, which walks the MRO: for `D(B)`
with an empty local namespace, `B.__init__` (id 4) — not defined in `D`'s
`contents` — is selected as `D`'s constructor. -/
theorem claim_C7_counterexample :
    findDunderConstructor 10 c7sys 3 = some 4 ∧
    (getObj (initConstructors 10 c7sys 3) 3).map (fun d => d.constructors) =
      some [4] ∧
    (getObj c7sys 3).map (fun d => dictGet d.contents "__init__") = some none ∧
    (getObj c7sys 2).map (fun d => dictGet d.contents "__init__") =
      some (some 4) := by
  refine ⟨by decide, by decide, by decide, by decide⟩

/-- Claim C7, amended: constructor detection selects a dunder constructor via
`Class.find`, which searches the class's MRO — the own namespace first (the
MRO starts at the class itself), then base classes, so an inherited dunder
constructor can be selected; `__new__` takes precedence over `__init__`
(`__init__` is consulted only when `find` reports no `__new__` at all, and a
non-`Function` `__new__` suppresses both); additionally a static or class
method from the class's *own* namespace whose return annotation resolves to
the class's fullName or a `Self` sentinel is appended as a constructor. -/
theorem claim_C7_amended :
    -- (A) own namespace first: when the MRO starts at the class itself and the
    -- class itself defines a Function __new__, that one is selected
    (∀ f (sys : System) clsId d n nd restM,
      getObj sys clsId = some d →
      mroMethodF f sys clsId false true = .inl clsId :: restM →
      dictGet d.contents "__new__" = some n →
      getObj sys n = some nd → isFunctionCls nd.cls = true →
      findDunderConstructor f sys clsId = some n) ∧
    -- (B) whatever find returns lives in the contents of SOME class of the
    -- MRO — possibly an inherited one
    (∀ f (sys : System) clsId nm x,
      findF f sys clsId nm = some x →
      ∃ b bd, Sum.inl b ∈ mroMethodF f sys clsId false true ∧
        getObj sys b = some bd ∧ dictGet bd.contents nm = some x) ∧
    -- (C) __new__ precedence: a Function __new__ found anywhere in the MRO is
    -- selected; a non-Function __new__ yields none; __init__ only when no
    -- __new__ exists
    (∀ f (sys : System) clsId n nd,
      findF f sys clsId "__new__" = some n →
      getObj sys n = some nd →
      (isFunctionCls nd.cls = true → findDunderConstructor f sys clsId = some n) ∧
      (isFunctionCls nd.cls = false → findDunderConstructor f sys clsId = none)) ∧
    (∀ f (sys : System) clsId i idd,
      findF f sys clsId "__new__" = none →
      findF f sys clsId "__init__" = some i →
      getObj sys i = some idd → isFunctionCls idd.cls = true →
      findDunderConstructor f sys clsId = some i) ∧
    -- (D) the full constructors list: the dunder result plus exactly the
    -- annotated static/class methods of the class's own namespace
    (∀ f (sys : System) clsId d,
      getObj sys clsId = some d →
      ∃ d', getObj (initConstructors f sys clsId) clsId = some d' ∧
        d'.constructors = d.constructors ++
          (match findDunderConstructor f sys clsId with
           | some c => [c]
           | none => []) ++
          ((d.contents.map Prod.snd).filter
            (fun funId => isAnnotatedConstructor f sys (fullNameF f sys clsId)
              (moduleOf f sys clsId) funId)) ∧
        (∀ c, c ∈ ((d.contents.map Prod.snd).filter
            (fun funId => isAnnotatedConstructor f sys (fullNameF f sys clsId)
              (moduleOf f sys clsId) funId)) ↔
          (c ∈ d.contents.map Prod.snd ∧
            isAnnotatedConstructor f sys (fullNameF f sys clsId)
              (moduleOf f sys clsId) c = true))) := by
  refine ⟨?_, ?_, ?_, ?_, ?_⟩
  · intro f sys clsId d n nd restM hget hmro hnew hgn hfn
    have hfind : findF f sys clsId "__new__" = some n := by
      unfold findF
      rw [hmro, findSome?_cons_eq]
      simp only [hget, hnew]
    unfold findDunderConstructor
    simp only [hfind, hgn, hfn, if_true]
  · intro f sys clsId nm x hfind
    unfold findF at hfind
    obtain ⟨s, hs, hfs⟩ := exists_of_findSome?_eq_some _ _ _ hfind
    cases s with
    | inl b =>
      dsimp only at hfs
      cases hgb : getObj sys b with
      | none => rw [hgb] at hfs; exact absurd hfs (by simp)
      | some bd =>
        rw [hgb] at hfs
        dsimp only at hfs
        exact ⟨b, bd, hs, hgb, hfs⟩
    | inr s' => exact absurd hfs (by simp)
  · intro f sys clsId n nd hfind hgn
    constructor
    · intro hfn
      unfold findDunderConstructor
      simp only [hfind, hgn, hfn, if_true]
    · intro hfn
      unfold findDunderConstructor
      simp only [hfind, hgn, hfn]
      simp
  · intro f sys clsId i idd hnone hfind hgi hfi
    unfold findDunderConstructor
    simp only [hnone, hfind, hgi, hfi, if_true]
  · intro f sys clsId d hget
    refine ⟨{ d with constructors := d.constructors ++
        (match findDunderConstructor f sys clsId with
         | some c => [c]
         | none => []) ++
        ((d.contents.map Prod.snd).filter
          (fun funId => isAnnotatedConstructor f sys (fullNameF f sys clsId)
            (moduleOf f sys clsId) funId)) }, ?_, ?_, ?_⟩
    · unfold initConstructors
      rw [hget]
      dsimp only
      unfold getObj setObj
      exact dictGet_dictSet_self _ _ _
    · rfl
    · intro c
      simp [List.mem_filter]

/-- Witness for the amended C7: `C(B)` with its own `__new__` selects that
`__new__` (own namespace, `__new__` precedence), while `D(B)` with an empty
namespace falls back to the inherited `__init__` through `find`. -/
theorem claim_C7_amended_witness :
    findDunderConstructor 10 c7sys 5 = some 6 ∧
      findDunderConstructor 10 c7sys 3 = some 4 := by
  constructor
  · exact claim_C7_amended.1 10 c7sys 5
      { cls := .klass, name := "C", parent := some 1, kind := some .CLASS,
        contents := [("__new__", 6)], rawbases := ["B"],
        _initialbases := ["m.B"], _initialbaseobjects := [some 2] }
      6
      { cls := .function, name := "__new__", parent := some 5,
        kind := some .METHOD }
      [Sum.inl 2] (by decide) (by decide) (by decide) (by decide) (by decide)
  · exact claim_C7_amended.2.2.2.1 10 c7sys 3 4
      { cls := .function, name := "__init__", parent := some 2,
        kind := some .METHOD }
      (by decide) (by decide) (by decide) (by decide)

/-! ### Claim C8: cyclic inheritance -/

/-- The spec's cyclic scenario: `class A(B)` declared first (its base could
not be resolved by the eager first pass: `_initialbaseobjects = [None]`),
`class B(A)` declared second (its base `A` already existed, so it resolved
eagerly). -/
def c8sys : System :=
  { allobjects := [("m", 1), ("m.A", 2), ("m.B", 3)],
    objs := [
      (1, { cls := .module, name := "m", contents := [("A", 2), ("B", 3)],
            kind := some .MODULE }),
      (2, { cls := .klass, name := "A", parent := some 1, kind := some .CLASS,
            rawbases := ["B"], _initialbases := ["m.B"],
            _initialbaseobjects := [none] }),
      (3, { cls := .klass, name := "B", parent := some 1, kind := some .CLASS,
            rawbases := ["A"], _initialbases := ["m.A"],
            _initialbaseobjects := [some 2] })],
    rootobjects := [1] }

/-- Claim C8, counterexample: for the two-class cycle, `_init_mro` on class
`A` terminates with the cyclic-inheritance diagnostic, but `A`'s fallback
ordering is `[A]` alone — it does **not** contain both classes: `A`'s base
never resolved (neither eagerly nor finally, since the re-resolving pass
aborts with the cycle error before storing anything), so
`list(A.allbases(True))` is just `[A]`. -/
theorem claim_C8_counterexample :
    ((initMro 8 c8sys 2).map
        (fun s => ((getObj s 2).map (fun d => d._mro), s.diags))) =
      .ok (some (some [Sum.inl 2]),
        ["Cycle found while computing inheritance hierarchy: m.A -> m.B -> m.A"]) ∧
    (Sum.inl 3 : Nat ⊕ String) ∉ [(Sum.inl 2 : Nat ⊕ String)] := by
  refine ⟨?_, by simp⟩
  simp [initMro, computeMroF, initFinalBaseObjects, initFBOLoop, resolveNameE,
      expandNameE, expGoE, expAfterE, expStep, objForFullNameE, rootLoopE,
      localNameToFullNameF, fullNameF, getObj, dictGet, splitDots, splitCharsOnDot,
      strJoin, splitFirstDot, splitCharsFirstDot, findF, mroMethodF, allbasesF,
      setObj, c8sys, isClassCls, dictSet, linearizeF, getbasesF, c3Merge, basesOf,
      baseobjectsOf, listIndex, parentChainF, Except.map]

/-- Claim C8, amended: for two classes declared with mutually cyclic bases,
MRO computation terminates (returns, rather than looping), each class gets a
cyclic-inheritance diagnostic, and each class's fallback ordering is a
non-empty duplicate-free sequence starting with the class itself that
additionally contains the classes reachable through eagerly-resolved base
links: the class declared second (whose base resolved eagerly) falls back to
`[B, A]` — both classes exactly once — while the class declared first falls
back to `[A]` alone. -/
theorem claim_C8_amended :
    ((initMro 8 c8sys 2).map
        (fun s => ((getObj s 2).map (fun d => d._mro), s.diags))) =
      .ok (some (some [Sum.inl 2]),
        ["Cycle found while computing inheritance hierarchy: m.A -> m.B -> m.A"]) ∧
    ((initMro 8 c8sys 3).map
        (fun s => ((getObj s 3).map (fun d => d._mro), s.diags))) =
      .ok (some (some [Sum.inl 3, Sum.inl 2]),
        ["Cycle found while computing inheritance hierarchy: m.B -> m.A -> m.B"]) ∧
    ([Sum.inl 2] : List (Nat ⊕ String)) ≠ [] ∧
    ([(Sum.inl 3 : Nat ⊕ String), Sum.inl 2]).Nodup := by
  refine ⟨?_, ?_, by simp, by simp⟩
  · simp [initMro, computeMroF, initFinalBaseObjects, initFBOLoop, resolveNameE,
      expandNameE, expGoE, expAfterE, expStep, objForFullNameE, rootLoopE,
      localNameToFullNameF, fullNameF, getObj, dictGet, splitDots, splitCharsOnDot,
      strJoin, splitFirstDot, splitCharsFirstDot, findF, mroMethodF, allbasesF,
      setObj, c8sys, isClassCls, dictSet, linearizeF, getbasesF, c3Merge, basesOf,
      baseobjectsOf, listIndex, parentChainF, Except.map]
  · simp [initMro, computeMroF, initFinalBaseObjects, initFBOLoop, resolveNameE,
      expandNameE, expGoE, expAfterE, expStep, objForFullNameE, rootLoopE,
      localNameToFullNameF, fullNameF, getObj, dictGet, splitDots, splitCharsOnDot,
      strJoin, splitFirstDot, splitCharsFirstDot, findF, mroMethodF, allbasesF,
      setObj, c8sys, isClassCls, dictSet, linearizeF, getbasesF, c3Merge, basesOf,
      baseobjectsOf, listIndex, parentChainF, Except.map]

/-! ### Claim C4: `expandName` never raises -/

/-- The registry invariant `addObject` maintains: every root object's name is
a key of `allobjects`.  (It rules out the `IndexError` that a dot-free name
could otherwise hit in `objForFullName`'s recovery loop.) -/
def rootsIndexedB (sys : System) : Bool :=
  sys.rootobjects.all (fun r =>
    match getObj sys r with
    | some d => decide (d.name ∈ dictKeys sys.allobjects)
    | none => true)

theorem rootsIndexedB_spec (sys : System) (h : rootsIndexedB sys = true) :
    ∀ r ∈ sys.rootobjects, ∀ d, getObj sys r = some d →
      d.name ∈ dictKeys sys.allobjects := by
  intro r hr d hd
  have h2 := List.all_eq_true.mp h r hr
  rw [hd] at h2
  exact of_decide_eq_true h2

theorem exists_dictGet_of_mem_keys {κ α : Type} [DecidableEq κ]
    (l : List (κ × α)) (k : κ) (h : k ∈ dictKeys l) : ∃ v, dictGet l k = some v := by
  induction l with
  | nil => simp [dictKeys] at h
  | cons hd tl ih =>
    obtain ⟨k', v'⟩ := hd
    by_cases h0 : k' = k
    · exact ⟨v', by simp [dictGet, h0]⟩
    · simp only [dictKeys, List.map_cons, List.mem_cons] at h
      rcases h with h | h
      · exact absurd h.symm h0
      · obtain ⟨v, hv⟩ := ih (by simpa [dictKeys] using h)
        exact ⟨v, by simp [dictGet, h0, hv]⟩

theorem splitCharsFirstDot_none :
    ∀ l : List Char, (splitCharsFirstDot l).2 = none → (splitCharsFirstDot l).1 = l := by
  intro l
  induction l with
  | nil => intro _; rfl
  | cons c cs ih =>
    intro h
    unfold splitCharsFirstDot at h ⊢
    by_cases hc : c = '.'
    · simp [hc] at h
    · simp only [hc, if_false] at h ⊢
      simp only [ih h]

theorem splitFirstDot_none (s : String) (h : (splitFirstDot s).2 = none) :
    (splitFirstDot s).1 = s := by
  obtain ⟨data⟩ := s
  unfold splitFirstDot at h ⊢
  simp only [Option.map_eq_none'] at h
  simp only [splitCharsFirstDot_none data h]

/-- `objForFullName` on this fuel either hits the fuel bound (Python's
`RecursionError`) or returns normally. -/
def objOkP (f : Nat) (sys : System) (nm : String) : Prop :=
  objForFullNameE f sys nm false = .error .recursionError ∨
    ∃ r, objForFullNameE f sys nm false = .ok r

/-- The `expandName` loop from this anchor returns a string that is the
dot-join of some expanded head with a suffix of the remaining components. -/
def goOkP (f : Nat) (sys : System) (obj : Nat) (first : Bool) (p : String)
    (rest : List String) : Prop :=
  ∃ s, expGoE f sys obj first p rest = .ok s ∧
    ∃ fn suf, suf <:+ rest ∧ s = strJoin "." (fn :: suf)

theorem expOk (f : Nat) :
    (∀ sys nm, rootsIndexedB sys = true → objOkP f sys nm) ∧
    (∀ sys obj first p rest, rootsIndexedB sys = true →
      goOkP f sys obj first p rest) := by
  induction f using Nat.strong_induction_on with
  | _ f IH =>
    have hobj : ∀ sys nm, rootsIndexedB sys = true → objOkP f sys nm := by
      intro sys nm hR
      match f, IH with
      | 0, _ => left; simp [objForFullNameE]
      | g + 1, IH =>
        cases hlook : dictGet sys.allobjects nm with
        | some o =>
          right
          exact ⟨some o, by unfold objForFullNameE; rw [hlook]⟩
        | none =>
          have hnm : (splitFirstDot nm).2 = none →
              (splitFirstDot nm).1 ∉ dictKeys sys.allobjects := by
            intro h2 hmem
            obtain ⟨v, hv⟩ := exists_dictGet_of_mem_keys _ _ hmem
            rw [splitFirstDot_none nm h2, hlook] at hv
            cases hv
          have hroot : ∀ roots, (∀ r ∈ roots, r ∈ sys.rootobjects) →
              rootLoopE g sys (splitFirstDot nm) false roots =
                  .error .recursionError ∨
                ∃ r, rootLoopE g sys (splitFirstDot nm) false roots = .ok r := by
            intro roots
            induction roots with
            | nil =>
              intro _
              right
              exact ⟨none, by simp [rootLoopE]⟩
            | cons r rs ihr =>
              intro hsub
              rcases hsp : splitFirstDot nm with ⟨hd, ro⟩
              by_cases hmatch : (getObj sys r).map (fun d => d.name) = some hd
              · cases ro with
                | none =>
                  exfalso
                  cases hgr : getObj sys r with
                  | none => rw [hgr] at hmatch; cases hmatch
                  | some d =>
                    rw [hgr] at hmatch
                    have hdn : d.name = hd := by
                      simpa using hmatch
                    have hidx := rootsIndexedB_spec sys hR r
                      (hsub r (List.mem_cons_self _ _)) d hgr
                    rw [hdn] at hidx
                    have := hnm (by rw [hsp])
                    rw [hsp] at this
                    exact this hidx
                | some tail =>
                  match g, IH with
                  | 0, _ =>
                    left
                    unfold rootLoopE
                    rw [if_pos hmatch]
                    simp [expandNameE]
                  | g' + 1, IH =>
                    have hexp : ∃ s, expandNameE (g' + 1) sys r tail = .ok s := by
                      unfold expandNameE
                      cases hsplit : splitDots tail with
                      | nil => exact ⟨tail, rfl⟩
                      | cons p prest =>
                        obtain ⟨s, hs, _⟩ :=
                          (IH g' (by omega)).2 sys r true p prest hR
                        exact ⟨s, hs⟩
                    obtain ⟨s, hs⟩ := hexp
                    right
                    unfold rootLoopE
                    rw [if_pos hmatch]
                    dsimp only
                    rw [hs]
                    cases hla : dictGet sys.allobjects s with
                    | some o => exact ⟨some o, by dsimp only; rw [hla]⟩
                    | none => exact ⟨none, by dsimp only; rw [hla]; rfl⟩
              · have := ihr (fun x hx => hsub x (List.mem_cons_of_mem _ hx))
                rcases this with herr | ⟨r', hr'⟩
                · left
                  unfold rootLoopE
                  rw [if_neg hmatch]
                  rw [hsp] at herr
                  exact herr
                · right
                  refine ⟨r', ?_⟩
                  unfold rootLoopE
                  rw [if_neg hmatch]
                  rw [hsp] at hr'
                  exact hr'
          have hroots := hroot sys.rootobjects (fun _ hx => hx)
          rcases hroots with herr | ⟨r, hr⟩
          · left
            unfold objForFullNameE
            rw [hlook]
            exact herr
          · right
            refine ⟨r, ?_⟩
            unfold objForFullNameE
            rw [hlook]
            exact hr
    have hgo : ∀ sys obj first p rest, rootsIndexedB sys = true →
        goOkP f sys obj first p rest := by
      intro sys obj first p rest hR
      induction rest generalizing obj first p with
      | nil =>
        by_cases hbrk : expStep f sys obj first p = p ∧ first = false
        · refine ⟨_, by unfold expGoE; rw [if_pos hbrk], _, [],
            List.nil_suffix, rfl⟩
        · rcases hobj sys (expStep f sys obj first p) hR with herr | ⟨r, hok⟩
          · refine ⟨_, ?_, expStep f sys obj first p, [], List.nil_suffix, rfl⟩
            unfold expGoE
            rw [if_neg hbrk, herr]
            unfold expAfterE
            rfl
          · cases r with
            | none =>
              refine ⟨_, ?_, expStep f sys obj first p, [], List.nil_suffix, rfl⟩
              unfold expGoE
              rw [if_neg hbrk, hok]
              unfold expAfterE
              rfl
            | some nxt =>
              refine ⟨_, ?_, expStep f sys obj first p, [], List.nil_suffix, rfl⟩
              unfold expGoE
              rw [if_neg hbrk, hok]
              unfold expAfterE
              rfl
      | cons p' rest' ihrest =>
        by_cases hbrk : expStep f sys obj first p = p ∧ first = false
        · refine ⟨_, by unfold expGoE; rw [if_pos hbrk], _, p' :: rest',
            List.suffix_refl _, rfl⟩
        · rcases hobj sys (expStep f sys obj first p) hR with herr | ⟨r, hok⟩
          · refine ⟨_, ?_, expStep f sys obj first p, p' :: rest',
              List.suffix_refl _, rfl⟩
            unfold expGoE
            rw [if_neg hbrk, herr]
            unfold expAfterE
            rfl
          · cases r with
            | none =>
              refine ⟨_, ?_, expStep f sys obj first p, p' :: rest',
                List.suffix_refl _, rfl⟩
              unfold expGoE
              rw [if_neg hbrk, hok]
              unfold expAfterE
              rfl
            | some nxt =>
              obtain ⟨s, hs, fn, suf, hsuf, hsh⟩ := ihrest nxt false p'
              refine ⟨s, ?_, fn, suf,
                hsuf.trans (List.suffix_cons p' rest'), hsh⟩
              unfold expGoE
              rw [if_neg hbrk, hok]
              unfold expAfterE
              exact hs
    exact ⟨hobj, hgo⟩

/-- Claim C4: for every context and every (possibly dotted) name,
`expandName` returns a string and never raises — given the registry invariant
that every root object is indexed (which rules out the only uncaught
exception path) and fuel for the call itself; the result is always the
dot-join of an expanded head with a suffix of the input's components.  As
soon as a component past the first cannot be resolved further (its local
lookup returns it unchanged and the class-`find` fallback fails, i.e.
`expStep` is the identity on it), the loop stops and returns the literal
concatenation of the last resolved anchor's fullName with the remaining
components. -/
theorem claim_C4 :
    (∀ f (sys : System) ctx name, rootsIndexedB sys = true →
      ∃ s, expandNameE (f + 1) sys ctx name = .ok s ∧
        ∃ fn suf, suf <:+ splitDots name ∧ s = strJoin "." (fn :: suf)) ∧
    (∀ f (sys : System) obj p rest,
      expStep f sys obj false p = p →
      expGoE f sys obj false p rest =
        .ok (strJoin "." ((fullNameF f sys obj ++ "." ++ p) :: rest))) := by
  constructor
  · intro f sys ctx name hR
    unfold expandNameE
    cases hsplit : splitDots name with
    | nil =>
      exact ⟨name, rfl, name, [], List.nil_suffix, rfl⟩
    | cons p rest =>
      obtain ⟨s, hs, fn, suf, hsuf, hsh⟩ := (expOk f).2 sys ctx true p rest hR
      exact ⟨s, hs, fn, suf, hsuf.trans (List.suffix_cons p rest), hsh⟩
  · intro f sys obj p rest hstep
    unfold expGoE
    rw [if_pos ⟨hstep, rfl⟩]

theorem claim_C4_witness :
    (∃ s, expandNameE 9 c8sys 2 "B.zzz" = .ok s ∧
      ∃ fn suf, suf <:+ splitDots "B.zzz" ∧ s = strJoin "." (fn :: suf)) ∧
    expGoE 4 c8sys 2 false "zzz" ["w"] =
      .ok (strJoin "." ((fullNameF 4 c8sys 2 ++ "." ++ "zzz") :: ["w"])) := by
  constructor
  · exact claim_C4.1 8 c8sys 2 "B.zzz" (by decide)
  · exact claim_C4.2 4 c8sys 2 "zzz" ["w"] (by decide)

/-! ### Claim C2: reparenting preserves old-fullName resolution -/

theorem handleReparentingPre_eraseIndex :
    ∀ f sys i, eraseIndex (handleReparentingPre f sys i) = eraseIndex sys := by
  intro f
  induction f with
  | zero => intro sys i; rfl
  | succ f ih =>
    intro sys i
    show eraseIndex (handleReparentingPre (f + 1) sys i) = eraseIndex sys
    unfold handleReparentingPre
    cases hobj : getObj sys i with
    | none => rfl
    | some d =>
      have aux : ∀ (l : List (String × Nat)) (s : System),
          eraseIndex (l.foldl (fun s c => handleReparentingPre f s c.2) s) =
            eraseIndex s := by
        intro l
        induction l with
        | nil => intro s; rfl
        | cons c l ihl =>
          intro s
          simp only [List.foldl_cons]
          rw [ihl (handleReparentingPre f s c.2), ih s c.2]
      rw [aux]
      rfl

theorem handleReparentingPost_eraseIndex :
    ∀ f sys i, eraseIndex (handleReparentingPost f sys i) = eraseIndex sys := by
  intro f
  induction f with
  | zero => intro sys i; rfl
  | succ f ih =>
    intro sys i
    show eraseIndex (handleReparentingPost (f + 1) sys i) = eraseIndex sys
    unfold handleReparentingPost
    cases hobj : getObj sys i with
    | none => rfl
    | some d =>
      have aux : ∀ (l : List (String × Nat)) (s : System),
          eraseIndex (l.foldl (fun s c => handleReparentingPost f s c.2) s) =
            eraseIndex s := by
        intro l
        induction l with
        | nil => intro s; rfl
        | cons c l ihl =>
          intro s
          simp only [List.foldl_cons]
          rw [ihl (handleReparentingPost f s c.2), ih s c.2]
      rw [aux]
      rfl

theorem handleReparentingPre_objs (f : Nat) (sys : System) (i : Nat) :
    (handleReparentingPre f sys i).objs = sys.objs := by
  have h := congrArg System.objs (handleReparentingPre_eraseIndex f sys i)
  exact h

theorem handleReparentingPost_objs (f : Nat) (sys : System) (i : Nat) :
    (handleReparentingPost f sys i).objs = sys.objs := by
  have h := congrArg System.objs (handleReparentingPost_eraseIndex f sys i)
  exact h

theorem getObj_handleReparentingPre (f : Nat) (sys : System) (i j : Nat) :
    getObj (handleReparentingPre f sys i) j = getObj sys j := by
  unfold getObj
  rw [handleReparentingPre_objs]

theorem getObj_handleReparentingPost (f : Nat) (sys : System) (i j : Nat) :
    getObj (handleReparentingPost f sys i) j = getObj sys j := by
  unfold getObj
  rw [handleReparentingPost_objs]

theorem getObj_setObj_self (sys : System) (i : Nat) (d : ObjData) :
    getObj (setObj sys i d) i = some d :=
  dictGet_dictSet_self sys.objs i d

theorem getObj_setObj_ne (sys : System) (i j : Nat) (d : ObjData) (h : i ≠ j) :
    getObj (setObj sys i d) j = getObj sys j :=
  dictGet_dictSet_ne sys.objs i j d h

/-- A root module `top` containing a module `sub` containing a class `thing`,
plus a second root module `dest`; `thing` will be reparented under `dest`. -/
def c2D1 : ObjData := { cls := .module, name := "top", contents := [("sub", 2)] }

def c2D2 : ObjData :=
  { cls := .module, name := "sub", parent := some 1, contents := [("thing", 3)] }

def c2D3 : ObjData := { cls := .klass, name := "thing", parent := some 2 }

def c2D4 : ObjData := { cls := .module, name := "dest" }

def c2sys : System :=
  { allobjects := [("top", 1), ("top.sub", 2), ("top.sub.thing", 3), ("dest", 4)],
    objs := [(1, c2D1), (2, c2D2), (3, c2D3), (4, c2D4)],
    rootobjects := [1, 4] }

/-- The system after `thing.reparent(dest, 'thing2')`. -/
def c2sys2 : System := reparent 9 c2sys 3 4 "thing2"

/-- Claim C2: (a) when the exact key misses, `objForFullName` falls back to the
root-object `expandName` recovery loop; (b) in general, `reparent` leaves the
forwarding entry `old_local_name → new_full_name` in the old parent's alias
table (stated for an old parent distinct from the moved object and the new
parent, with no eviction at the target); (c) end to end on a concrete system:
after reparenting `top.sub.thing` to `dest.thing2`, the old fullName key is
gone from `allobjects`, yet `objForFullName('top.sub.thing')` still returns
the very same object, which now lives under `dest.thing2`. -/
theorem claim_C2 :
    (∀ f (sys : System) nm, dictGet sys.allobjects nm = none →
      objForFullNameE (f + 1) sys nm false =
        rootLoopE f sys (splitFirstDot nm) false sys.rootobjects) ∧
    (∀ f (sys : System) selfId newParentId opId new_name d0 npd opd,
      getObj sys selfId = some d0 →
      getObj sys newParentId = some npd →
      dictGet npd.contents new_name = none →
      d0.parent = some opId →
      selfId ≠ opId →
      selfId ≠ newParentId →
      opId ≠ newParentId →
      getObj sys opId = some opd →
      ∃ m, getObj (reparent f sys selfId newParentId new_name) opId = some m ∧
        dictGet m._localNameToFullName_map d0.name =
          some (fullNameF f
            (setObj sys selfId
              { d0 with parent := some newParentId, name := new_name })
            selfId)) ∧
    dictGet c2sys2.allobjects "top.sub.thing" = none ∧
    fullNameF 9 c2sys2 3 = "dest.thing2" ∧
    dictGet c2sys2.allobjects "dest.thing2" = some 3 ∧
    objForFullNameE 9 c2sys2 "top.sub.thing" false = .ok (some 3) := by
  refine ⟨?_, ?_, ?_, ?_, ?_, ?_⟩
  · intro f sys nm h
    unfold objForFullNameE
    rw [h]
  · intro f sys selfId newParentId opId new_name d0 npd opd
      h1 h2 h3 h4 h5 h6 h7 h8
    unfold reparent
    rw [h1]
    dsimp only
    rw [h2]
    dsimp only
    rw [h3]
    dsimp only
    simp only [getObj_handleReparentingPre, getObj_handleReparentingPost,
      getObj_setObj_self, getObj_setObj_ne _ _ _ _ h5,
      getObj_setObj_ne _ _ _ _ h6, getObj_setObj_ne _ _ _ _ h7,
      getObj_setObj_ne _ _ _ _ (Ne.symm h7), h1, h2, h8, h4]
    refine ⟨_, rfl, ?_⟩
    dsimp only
    rw [dictGet_dictSet_self]
    have hobjs :
        (handleReparentingPost f
            (setObj (handleReparentingPre f sys selfId) selfId
              { d0 with parent := some newParentId, name := new_name })
            selfId).objs =
          (setObj sys selfId
            { d0 with parent := some newParentId, name := new_name }).objs := by
      rw [handleReparentingPost_objs]
      show dictSet (handleReparentingPre f sys selfId).objs selfId _ = _
      rw [handleReparentingPre_objs]
      rfl
    rw [fullNameF_congr f _ _ hobjs]
  · decide
  · decide
  · decide
  · simp [c2sys2, reparent, c2sys, c2D1, c2D2, c2D3, c2D4,
      handleReparentingPre, handleReparentingPost, setObj, getObj, dictGet,
      dictSet, dictDel, fullNameF, objForFullNameE, rootLoopE, expandNameE,
      expGoE, expAfterE, expStep, splitDots, splitCharsOnDot,
      localNameToFullNameF, strJoin, splitFirstDot, splitCharsFirstDot,
      handleDuplicate, findF, mroMethodF, allbasesF, isClassCls]

theorem claim_C2_witness :
    (objForFullNameE 1 { allobjects := [] } "x" false =
      rootLoopE 0 { allobjects := [] } (splitFirstDot "x") false
        ({ allobjects := [] } : System).rootobjects) ∧
    ∃ m, getObj (reparent 9 c2sys 3 4 "thing2") 2 = some m ∧
      dictGet m._localNameToFullName_map "thing" =
        some (fullNameF 9
          (setObj c2sys 3 { c2D3 with parent := some 4, name := "thing2" }) 3) :=
  ⟨claim_C2.1 0 { allobjects := [] } "x" rfl,
   claim_C2.2.1 9 c2sys 3 4 2 "thing2" c2D3 c2D4 c2D2 rfl rfl rfl rfl
     (by decide) (by decide) (by decide) rfl⟩

/-! ### Claim C3: order-independence of the processing scheduler -/

/-- The index entries contributed by processing the modules of `σ`, in
processing order. -/
def contribCat (B : BuilderModel) : List String → List (String × Nat)
  | [] => []
  | m :: ms => B.contrib m ++ contribCat B ms

theorem contribCat_append (B : BuilderModel) :
    ∀ l1 l2, contribCat B (l1 ++ l2) = contribCat B l1 ++ contribCat B l2 := by
  intro l1 l2
  induction l1 with
  | nil => rfl
  | cons a t ih =>
    show B.contrib a ++ contribCat B (t ++ l2) =
      B.contrib a ++ contribCat B t ++ contribCat B l2
    rw [ih, List.append_assoc]

theorem perm_contribCat (B : BuilderModel) {l1 l2 : List String}
    (h : l1.Perm l2) : (contribCat B l1).Perm (contribCat B l2) := by
  induction h with
  | nil => exact List.Perm.refl _
  | cons x _ ih => exact ih.append_left (B.contrib x)
  | swap x y l =>
    show List.Perm (B.contrib y ++ (B.contrib x ++ contribCat B l))
      (B.contrib x ++ (B.contrib y ++ contribCat B l))
    rw [← List.append_assoc, ← List.append_assoc]
    exact (List.perm_append_comm).append_right _
  | trans _ _ ih1 ih2 => exact ih1.trans ih2

theorem length_filter_lt {α : Type} {p : α → Bool} {l : List α} {m : α}
    (hm : m ∈ l) (hp : p m = false) : (l.filter p).length < l.length := by
  rcases Nat.lt_or_ge (l.filter p).length l.length with h | h
  · exact h
  · exfalso
    have hsub := List.filter_sublist (p := p) l
    have heq : l.filter p = l := hsub.eq_of_length (le_antisymm hsub.length_le h)
    have hmem : m ∈ l.filter p := by rw [heq]; exact hm
    rw [List.mem_filter, hp] at hmem
    exact Bool.noConfusion hmem.2

theorem dictGet_perm : ∀ {l1 l2 : List (String × Nat)}, l1.Perm l2 →
    (dictKeys l1).Nodup → ∀ k, dictGet l1 k = dictGet l2 k := by
  intro l1 l2 h
  induction h with
  | nil => intro _ _; rfl
  | cons x h ih =>
    intro hnd k
    obtain ⟨k', v'⟩ := x
    show dictGet ((k', v') :: _) k = dictGet ((k', v') :: _) k
    by_cases hk : k' = k
    · simp [dictGet, hk]
    · simp only [dictGet, hk, if_false]
      exact ih (List.nodup_cons.mp hnd).2 k
  | swap x y l =>
    intro hnd k
    obtain ⟨k1, v1⟩ := x
    obtain ⟨k2, v2⟩ := y
    have hne : k2 ≠ k1 := by
      simp only [dictKeys, List.map_cons, List.nodup_cons, List.mem_cons] at hnd
      exact fun hc => hnd.1 (Or.inl hc)
    by_cases h1 : k2 = k
    · subst h1
      simp [dictGet, hne.symm]
    · by_cases h2 : k1 = k
      · subst h2
        simp [dictGet, hne, h1]
      · simp [dictGet, h1, h2]
  | trans h1 _ ih1 ih2 =>
    intro hnd k
    have hnd2 : (dictKeys _).Nodup := ((h1.map Prod.fst).nodup_iff).mp hnd
    exact (ih1 hnd k).trans (ih2 hnd2 k)

/-- The scheduler invariant: the `unprocessed_modules` queue holds no
duplicates and contains exactly the modules whose state is `UNPROCESSED`. -/
def schedInv (st : SchedState) : Prop :=
  st.unprocessed.Nodup ∧
  ∀ x, x ∈ st.unprocessed ↔ dictGet st.states x = some ProcessingState.UNPROCESSED

/-- The effect of one scheduler action: some duplicate-free batch `σ` of
previously-queued modules got processed — their contributions are appended to
the index in batch order, their states flip to `PROCESSED`, and they leave the
queue; nothing else changes. -/
def PSpec (B : BuilderModel) (st st' : SchedState) (σ : List String) : Prop :=
  σ.Nodup ∧ (∀ x ∈ σ, x ∈ st.unprocessed) ∧
  st'.index = st.index ++ contribCat B σ ∧
  (∀ x, dictGet st'.states x =
    if x ∈ σ then some ProcessingState.PROCESSED else dictGet st.states x) ∧
  st'.unprocessed = st.unprocessed.filter (fun x => decide (¬ x ∈ σ))

theorem filter_notmem_nil (l : List String) :
    l.filter (fun x => decide (¬ x ∈ ([] : List String))) = l := by
  induction l with
  | nil => rfl
  | cons a t ih => simp [ih]

theorem PSpec_id (B : BuilderModel) (st : SchedState) : PSpec B st st [] :=
  ⟨List.nodup_nil, by simp, by simp [contribCat], fun x => by simp,
   (filter_notmem_nil st.unprocessed).symm⟩

theorem schedInv_PSpec (B : BuilderModel) (st st' : SchedState)
    (σ : List String) (hI : schedInv st) (h : PSpec B st st' σ) :
    schedInv st' := by
  obtain ⟨hnd, hmem⟩ := hI
  obtain ⟨_, _, _, hsta, hunp⟩ := h
  constructor
  · rw [hunp]
    exact hnd.filter _
  · intro x
    rw [hunp, List.mem_filter, hsta x]
    by_cases hx : x ∈ σ
    · simp [hx]
    · simp [hx, hmem x]

theorem PSpec_comp (B : BuilderModel) (st st1 st2 : SchedState)
    (σ1 σ2 : List String) (h1 : PSpec B st st1 σ1) (h2 : PSpec B st1 st2 σ2) :
    PSpec B st st2 (σ1 ++ σ2) := by
  obtain ⟨nd1, sub1, idx1, sta1, unp1⟩ := h1
  obtain ⟨nd2, sub2, idx2, sta2, unp2⟩ := h2
  have hdisj : ∀ x ∈ σ2, ¬ x ∈ σ1 := by
    intro x hx
    have hm := sub2 x hx
    rw [unp1, List.mem_filter] at hm
    simpa using hm.2
  refine ⟨?_, ?_, ?_, ?_, ?_⟩
  · exact nd1.append nd2 (fun a ha hb => hdisj a hb ha)
  · intro x hx
    rcases List.mem_append.mp hx with h | h
    · exact sub1 x h
    · have hm := sub2 x h
      rw [unp1, List.mem_filter] at hm
      exact hm.1
  · rw [idx2, idx1, contribCat_append, List.append_assoc]
  · intro x
    rw [sta2 x, sta1 x]
    by_cases hx2 : x ∈ σ2
    · simp [hx2]
    · by_cases hx1 : x ∈ σ1
      · simp [hx1, hx2]
      · simp [hx1, hx2]
  · rw [unp2, unp1, List.filter_filter]
    refine List.filter_congr ?_
    intro x _
    by_cases hx1 : x ∈ σ1
    · simp [hx1]
    · by_cases hx2 : x ∈ σ2
      · simp [hx1, hx2]
      · simp [hx1, hx2]

theorem foldSpec (B : BuilderModel) (f : Nat)
    (hG : ∀ st d, schedInv st → st.unprocessed.length ≤ f →
      ∃ σ, PSpec B st (getProcessedModuleS B f st d) σ) :
    ∀ (ds : List String) (st : SchedState), schedInv st →
      st.unprocessed.length ≤ f →
      ∃ σ, PSpec B st
        (ds.foldl (fun s d => getProcessedModuleS B f s d) st) σ := by
  intro ds
  induction ds with
  | nil =>
    intro st _ _
    exact ⟨[], PSpec_id B st⟩
  | cons d ds ih =>
    intro st hI hlen
    obtain ⟨σ1, h1⟩ := hG st d hI hlen
    have hI1 := schedInv_PSpec B st _ σ1 hI h1
    have hlen1 : (getProcessedModuleS B f st d).unprocessed.length ≤ f := by
      obtain ⟨_, _, _, _, hunp⟩ := h1
      rw [hunp]
      exact le_trans (List.length_filter_le _ _) hlen
    obtain ⟨σ2, h2⟩ := ih (getProcessedModuleS B f st d) hI1 hlen1
    refine ⟨σ1 ++ σ2, ?_⟩
    simp only [List.foldl_cons]
    exact PSpec_comp B st _ _ σ1 σ2 h1 h2

theorem processSpec (B : BuilderModel) (f : Nat)
    (hG : ∀ st d, schedInv st → st.unprocessed.length ≤ f →
      ∃ σ, PSpec B st (getProcessedModuleS B f st d) σ) :
    ∀ st m, schedInv st →
      dictGet st.states m = some ProcessingState.UNPROCESSED →
      st.unprocessed.length ≤ f + 1 →
      ∃ σ, m ∈ σ ∧ PSpec B st (processModuleS B (f + 1) st m) σ := by
  intro st m hI hm hlen
  have hmem : m ∈ st.unprocessed := (hI.2 m).mpr hm
  set st1 : SchedState := { st with
    states := dictSet st.states m ProcessingState.PROCESSING,
    unprocessed := st.unprocessed.erase m } with hst1
  have hI1 : schedInv st1 := by
    constructor
    · show (st.unprocessed.erase m).Nodup
      exact hI.1.erase m
    · intro x
      show x ∈ st.unprocessed.erase m ↔
        dictGet (dictSet st.states m ProcessingState.PROCESSING) x =
          some ProcessingState.UNPROCESSED
      rw [hI.1.mem_erase_iff]
      by_cases hx : x = m
      · subst hx
        simp [dictGet_dictSet_self]
      · rw [dictGet_dictSet_ne _ _ _ _ (Ne.symm hx)]
        simp [hx, hI.2 x]
  have hlen1 : st1.unprocessed.length ≤ f := by
    show (st.unprocessed.erase m).length ≤ f
    rw [List.length_erase_of_mem hmem]
    omega
  obtain ⟨σd, hfold⟩ := foldSpec B f hG (B.deps m) st1 hI1 hlen1
  set st2 : SchedState :=
    (B.deps m).foldl (fun s d => getProcessedModuleS B f s d) st1 with hst2
  have hfold2 : PSpec B st1 st2 σd := hfold
  obtain ⟨ndd, subd, idxd, stad, unpd⟩ := hfold2
  have hmσd : ¬ m ∈ σd := by
    intro hc
    have hc2 : m ∈ st.unprocessed.erase m := subd m hc
    have hc3 := (hI.1.mem_erase_iff).mp hc2
    exact hc3.1 rfl
  have heq : processModuleS B (f + 1) st m = { st2 with
      index := st2.index ++ B.contrib m,
      states := dictSet st2.states m ProcessingState.PROCESSED } := by
    unfold processModuleS
    rfl
  refine ⟨σd ++ [m], by simp, ?_, ?_, ?_, ?_, ?_⟩
  · refine ndd.append (by simp) ?_
    intro a ha hb
    rw [List.mem_singleton] at hb
    subst hb
    exact hmσd ha
  · intro x hx
    rcases List.mem_append.mp hx with h | h
    · exact List.mem_of_mem_erase (subd x h)
    · rw [List.mem_singleton] at h
      subst h
      exact hmem
  · rw [heq]
    show st2.index ++ B.contrib m = st.index ++ contribCat B (σd ++ [m])
    rw [idxd, contribCat_append]
    show st.index ++ contribCat B σd ++ B.contrib m =
      st.index ++ (contribCat B σd ++ (B.contrib m ++ []))
    simp [List.append_assoc]
  · intro x
    rw [heq]
    by_cases hx : x = m
    · subst hx
      show dictGet (dictSet st2.states x ProcessingState.PROCESSED) x = _
      rw [dictGet_dictSet_self]
      simp
    · show dictGet (dictSet st2.states m ProcessingState.PROCESSED) x = _
      rw [dictGet_dictSet_ne _ _ _ _ (Ne.symm hx), stad x]
      by_cases hxd : x ∈ σd
      · simp [hxd]
      · have hst1s : dictGet st1.states x = dictGet st.states x :=
          dictGet_dictSet_ne _ _ _ _ (Ne.symm hx)
        simp only [hxd, if_false]
        rw [hst1s]
        simp [hxd, hx]
  · rw [heq]
    show st2.unprocessed =
      st.unprocessed.filter (fun x => decide (¬ x ∈ σd ++ [m]))
    rw [unpd]
    show (st.unprocessed.erase m).filter (fun x => decide (¬ x ∈ σd)) =
      st.unprocessed.filter (fun x => decide (¬ x ∈ σd ++ [m]))
    rw [hI.1.erase_eq_filter m, List.filter_filter]
    refine List.filter_congr ?_
    intro x _
    by_cases hx1 : x ∈ σd
    · simp [hx1]
    · by_cases hx2 : x = m
      · simp [hx1, hx2]
      · simp [hx1, hx2]

theorem schedStep (B : BuilderModel) : ∀ f,
    (∀ st m, schedInv st →
      dictGet st.states m = some ProcessingState.UNPROCESSED →
      st.unprocessed.length ≤ f + 1 →
      ∃ σ, m ∈ σ ∧ PSpec B st (processModuleS B (f + 1) st m) σ) ∧
    (∀ st d, schedInv st → st.unprocessed.length ≤ f →
      ∃ σ, PSpec B st (getProcessedModuleS B f st d) σ) := by
  intro f
  induction f with
  | zero =>
    have hG : ∀ st d, schedInv st → st.unprocessed.length ≤ 0 →
        ∃ σ, PSpec B st (getProcessedModuleS B 0 st d) σ := by
      intro st d hI hlen
      have hempty : st.unprocessed = [] :=
        List.length_eq_zero.mp (Nat.le_zero.mp hlen)
      refine ⟨[], ?_⟩
      unfold getProcessedModuleS
      cases hd : dictGet st.states d with
      | none => exact PSpec_id B st
      | some s =>
        cases s with
        | UNPROCESSED =>
          exfalso
          have hc := (hI.2 d).mpr hd
          rw [hempty] at hc
          exact (List.not_mem_nil d) hc
        | PROCESSING => exact PSpec_id B st
        | PROCESSED => exact PSpec_id B st
    exact ⟨processSpec B 0 hG, hG⟩
  | succ f ih =>
    have hG : ∀ st d, schedInv st → st.unprocessed.length ≤ f + 1 →
        ∃ σ, PSpec B st (getProcessedModuleS B (f + 1) st d) σ := by
      intro st d hI hlen
      unfold getProcessedModuleS
      cases hd : dictGet st.states d with
      | none => exact ⟨[], PSpec_id B st⟩
      | some s =>
        cases s with
        | UNPROCESSED =>
          obtain ⟨σ, _, hPS⟩ := ih.1 st d hI hd hlen
          exact ⟨σ, hPS⟩
        | PROCESSING => exact ⟨[], PSpec_id B st⟩
        | PROCESSED => exact ⟨[], PSpec_id B st⟩
    exact ⟨processSpec B (f + 1) hG, hG⟩

theorem drainSpec (B : BuilderModel) : ∀ f st, schedInv st →
    st.unprocessed.length < f →
    ∃ σ, σ.Nodup ∧ (∀ x, x ∈ σ ↔ x ∈ st.unprocessed) ∧
      (drainS B f st).index = st.index ++ contribCat B σ := by
  intro f
  induction f with
  | zero =>
    intro st _ hlen
    exact absurd hlen (Nat.not_lt_zero _)
  | succ f ih =>
    intro st hI hlen
    cases hu : st.unprocessed with
    | nil =>
      refine ⟨[], List.nodup_nil, by simp [hu], ?_⟩
      unfold drainS
      rw [hu]
      simp [contribCat]
    | cons m rest =>
      have hmmem : m ∈ st.unprocessed := by
        rw [hu]
        exact List.mem_cons_self m rest
      have hmstate := (hI.2 m).mp hmmem
      have hlen' : st.unprocessed.length ≤ f + 1 := Nat.le_of_lt hlen
      obtain ⟨σ1, hmσ, hPS⟩ := (schedStep B f).1 st m hI hmstate hlen'
      have hI' := schedInv_PSpec B st _ σ1 hI hPS
      obtain ⟨nd1, sub1, idx1, sta1, unp1⟩ := hPS
      have hlen'' : (processModuleS B (f + 1) st m).unprocessed.length < f := by
        rw [unp1]
        have hflt := length_filter_lt (p := fun x => decide (¬ x ∈ σ1))
          hmmem (by simp [hmσ])
        omega
      obtain ⟨σ2, nd2, mem2, idx2⟩ := ih (processModuleS B (f + 1) st m) hI' hlen''
      refine ⟨σ1 ++ σ2, ?_, ?_, ?_⟩
      · refine nd1.append nd2 ?_
        intro a ha hb
        have hb2 := (mem2 a).mp hb
        rw [unp1, List.mem_filter] at hb2
        have hb3 : ¬ a ∈ σ1 := by simpa using hb2.2
        exact hb3 ha
      · intro x
        rw [← hu, List.mem_append, mem2 x, unp1, List.mem_filter]
        constructor
        · rintro (h | h)
          · exact sub1 x h
          · exact h.1
        · intro hx
          by_cases hσ : x ∈ σ1
          · exact Or.inl hσ
          · refine Or.inr ⟨hx, ?_⟩
            simp [hσ]
      · show (drainS B (f + 1) st).index = _
        unfold drainS
        rw [hu]
        rw [idx2, idx1, contribCat_append, List.append_assoc]

theorem dictGet_initial (mods : List String) (x : String) :
    dictGet (mods.map (fun m => (m, ProcessingState.UNPROCESSED))) x =
      if x ∈ mods then some ProcessingState.UNPROCESSED else none := by
  induction mods with
  | nil => simp [dictGet]
  | cons a t ih =>
    show dictGet ((a, ProcessingState.UNPROCESSED) :: _) x = _
    by_cases hx : a = x
    · simp [dictGet, hx]
    · simp only [dictGet, hx, if_false, ih, List.mem_cons]
      by_cases hxt : x ∈ t
      · simp [hxt]
      · have hxa : ¬ x = a := fun hc => hx hc.symm
        simp [hxt, hxa]

theorem schedInv_initial (mods : List String) (h : mods.Nodup) :
    schedInv (initialSched mods) := by
  refine ⟨h, ?_⟩
  intro x
  show x ∈ mods ↔ dictGet (mods.map fun m => (m, ProcessingState.UNPROCESSED)) x = _
  rw [dictGet_initial]
  by_cases hx : x ∈ mods
  · simp [hx]
  · simp [hx]

/-- Claim C3 (spec-modelled builder): building the same duplicate-free set of
modules under any two discovery orders yields index contents that are
permutations of each other, hence an identical set of `allobjects` keys; and
when the per-module contributions do not collide (the concatenated key list is
duplicate-free), every key maps to the identical entry, so anything computed
from the final index — in particular each class's MRO — agrees as well. -/
theorem claim_C3 (B : BuilderModel) (mods1 mods2 : List String)
    (hperm : mods1.Perm mods2) (hnd : mods1.Nodup) :
    ((buildAll B mods1).index).Perm ((buildAll B mods2).index) ∧
    (∀ k, k ∈ dictKeys (buildAll B mods1).index ↔
      k ∈ dictKeys (buildAll B mods2).index) ∧
    ((dictKeys (buildAll B mods1).index).Nodup →
      ∀ k, dictGet (buildAll B mods1).index k =
        dictGet (buildAll B mods2).index k) := by
  have hnd2 : mods2.Nodup := hperm.nodup_iff.mp hnd
  obtain ⟨σ1, nd1, mem1, idx1⟩ := drainSpec B (mods1.length + 1)
    (initialSched mods1) (schedInv_initial mods1 hnd) (by simp [initialSched])
  obtain ⟨σ2, nd2, mem2, idx2⟩ := drainSpec B (mods2.length + 1)
    (initialSched mods2) (schedInv_initial mods2 hnd2) (by simp [initialSched])
  have hb1 : (buildAll B mods1).index = contribCat B σ1 := by
    have h := idx1
    simpa [initialSched] using h
  have hb2 : (buildAll B mods2).index = contribCat B σ2 := by
    have h := idx2
    simpa [initialSched] using h
  have hσ1 : σ1.Perm mods1 := by
    have hs1 : σ1 ⊆ mods1 := fun x hx => (mem1 x).mp hx
    have hs2 : mods1 ⊆ σ1 := fun x hx => (mem1 x).mpr hx
    exact (List.subperm_of_subset nd1 hs1).antisymm
      (List.subperm_of_subset hnd hs2)
  have hσ2 : σ2.Perm mods2 := by
    have hs1 : σ2 ⊆ mods2 := fun x hx => (mem2 x).mp hx
    have hs2 : mods2 ⊆ σ2 := fun x hx => (mem2 x).mpr hx
    exact (List.subperm_of_subset nd2 hs1).antisymm
      (List.subperm_of_subset hnd2 hs2)
  have hpermIdx : ((buildAll B mods1).index).Perm ((buildAll B mods2).index) := by
    rw [hb1, hb2]
    exact perm_contribCat B (hσ1.trans (hperm.trans hσ2.symm))
  refine ⟨hpermIdx, ?_, ?_⟩
  · intro k
    exact (hpermIdx.map Prod.fst).mem_iff
  · intro hkeys k
    exact dictGet_perm hpermIdx hkeys k

/-- A two-module system where `a` depends on `b`. -/
def c3B : BuilderModel :=
  { contrib := fun m =>
      if m = "a" then [("a", 1), ("a.x", 2)]
      else if m = "b" then [("b", 3)] else [],
    deps := fun m => if m = "a" then ["b"] else [] }

theorem claim_C3_witness :
    ((buildAll c3B ["a", "b"]).index).Perm ((buildAll c3B ["b", "a"]).index) ∧
    (∀ k, k ∈ dictKeys (buildAll c3B ["a", "b"]).index ↔
      k ∈ dictKeys (buildAll c3B ["b", "a"]).index) ∧
    ((dictKeys (buildAll c3B ["a", "b"]).index).Nodup →
      ∀ k, dictGet (buildAll c3B ["a", "b"]).index k =
        dictGet (buildAll c3B ["b", "a"]).index k) :=
  claim_C3 c3B ["a", "b"] ["b", "a"] (List.Perm.swap "b" "a" []) (by decide)

end PydoctorProof
